import Mathlib

/-!
Verification of the tabix-style index core (tbx.c / hts.c region parsing).

The C source is shallowly embedded: a text line is a `List Char`, the
parser state is passed explicitly, machine `int64_t` arithmetic is `Int`
(saturation of `strtoll` at the `int64` bounds is not modelled: all inputs
of interest are far below them), and the once-per-process warning latch is
an explicit `Bool` threaded through the calls.  Warnings become values of
an inductive type collected in a list.
-/

/-! ## C library string primitives -/

/-- C `isspace` over the execution character set (ASCII). -/
def isSpaceC (c : Char) : Bool :=
  c = ' ' ∨ c = '\t' ∨ c = '\n' ∨ c = '\x0b' ∨ c = '\x0c' ∨ c = '\r'

/-- Value of a digit character for `strtoll`, letters meaning 10.. as in C. -/
def digitValC (c : Char) : Option Nat :=
  if '0' ≤ c ∧ c ≤ '9' then some (c.toNat - 48)
  else if 'a' ≤ c ∧ c ≤ 'z' then some (c.toNat - 97 + 10)
  else if 'A' ≤ c ∧ c ≤ 'Z' then some (c.toNat - 65 + 10)
  else none

/-- Greedy digit run in base `b`: accumulated value and number of chars. -/
def takeDigitsAcc (b : Nat) (acc : Nat) (n : Nat) : List Char → Nat × Nat
  | [] => (acc, n)
  | c :: cs =>
    match digitValC c with
    | some v => if v < b then takeDigitsAcc b (acc * b + v) (n + 1) cs else (acc, n)
    | none => (acc, n)

/-- Does the list start with a digit valid in base 16?  (Used for the `0x`
prefix rule of `strtoll` with base 0 or 16.) -/
def hexHead : List Char → Bool
  | c :: _ => match digitValC c with | some v => v < 16 | none => false
  | [] => false

/-- C `strtoll(s, &end, base)` on a character list: the parsed value and the
number of characters consumed (`0` means no conversion was performed, i.e.
`end == s`).  Base `0` infers octal/hex from a `0`/`0x` prefix as in C.
`int64` saturation is not modelled. -/
def strtoll (cs : List Char) (base : Nat) : Int × Nat :=
  let nws := (cs.takeWhile isSpaceC).length
  let r1 := cs.drop nws
  let (neg, nsign, r2) :=
    match r1 with
    | '-' :: r => (true, 1, r)
    | '+' :: r => (false, 1, r)
    | r => (false, 0, r)
  let (b, npre, r3) :=
    if base = 0 ∨ base = 16 then
      match r2 with
      | '0' :: x :: r =>
        if (x = 'x' ∨ x = 'X') ∧ hexHead r then (16, 2, r)
        else (if base = 0 then 8 else 16, 0, '0' :: x :: r)
      | '0' :: r => (if base = 0 then 8 else 16, 0, '0' :: r)
      | r => (if base = 0 then 10 else 16, 0, r)
    else (base, 0, r2)
  let (v, nd) := takeDigitsAcc b 0 0 r3
  if nd = 0 then (0, 0)
  else ((if neg then -(v : Int) else (v : Int)), nws + nsign + npre + nd)

/-- C `atoll`: `strtoll` in base 10, end pointer discarded. -/
def atoll (cs : List Char) : Int := (strtoll cs 10).1

/-- Split on a separator character; the result is never empty, and an empty
input yields one empty piece (matching C scanning of a NUL-terminated
region with `strchr`). -/
def splitOnCh (sep : Char) : List Char → List (List Char)
  | [] => [[]]
  | c :: cs =>
    if c = sep then [] :: splitOnCh sep cs
    else
      match splitOnCh sep cs with
      | [] => [[c]]
      | f :: rest => (c :: f) :: rest

/-- Does `pat` occur at the head of `cs`? -/
def leadsWith : List Char → List Char → Bool
  | [], _ => true
  | _ :: _, [] => false
  | p :: ps, c :: cs => p = c ∧ leadsWith ps cs

/-- C `strstr`: index of the first occurrence of `pat` in `cs`. -/
def firstIdxOfSub (pat : List Char) : List Char → Option Nat
  | [] => if leadsWith pat [] then some 0 else none
  | c :: cs =>
    if leadsWith pat (c :: cs) then some 0
    else (firstIdxOfSub pat cs).map (· + 1)

/-- Rightmost occurrence of a character. -/
def lastIdxOfCh (c : Char) : List Char → Option Nat
  | [] => none
  | a :: rest =>
    match lastIdxOfCh c rest with
    | some j => some (j + 1)
    | none => if a = c then some 0 else none

/-- C `toupper` on ASCII. -/
def toUpperC (c : Char) : Char :=
  if 'a' ≤ c ∧ c ≤ 'z' then Char.ofNat (c.toNat - 32) else c

/-! ## Line splitting

`tbx_parse1` walks `i = 0..len` and treats `'\t'` and NUL as field
terminators, the caller's buffer being NUL-terminated at `len`.  That is
exactly a split of the line on tab/NUL; we keep each field's starting
offset `b` so that the pointer-based scanners (`strtoll(line + b, …)`,
which may run past a field when skipping whitespace) can be modelled on
the whole line. -/

/-- Field separator of `tbx_parse1`: tab or NUL. -/
def isFieldSep (c : Char) : Bool := c = '\t' ∨ c = '\x00'

/-- Fields of `line` with their starting offsets, the first field starting
at offset `off`. -/
def splitFieldsPos : List Char → Nat → List (Nat × List Char)
  | [], b => [(b, [])]
  | c :: cs, b =>
    if isFieldSep c then (b, []) :: splitFieldsPos cs (b + 1)
    else
      match splitFieldsPos cs (b + 1) with
      | [] => [(b, [c])]
      | (_, f) :: rest => (b, c :: f) :: rest

/-- The 1-based `n`-th field of a line (empty when the line is shorter). -/
def fieldN (line : List Char) (n : Nat) : List Char :=
  (((splitFieldsPos line 0).map Prod.snd).getD (n - 1) [])

/-! ## Tabix configuration -/

def TBX_GENERIC : Nat := 0
def TBX_SAM : Nat := 1
def TBX_VCF : Nat := 2
/-- Tag value as in `tbx.h` (the header is not part of the staged source;
only its distinctness in the low 16 bits matters to the semantics here). -/
def TBX_GAF : Nat := 3
def TBX_UCSC : Nat := 0x10000

structure TbxConf where
  preset : Nat
  sc : Nat
  bc : Nat
  ec : Nat
  meta_char : Char
  line_skip : Nat
deriving DecidableEq, Repr

def tbx_conf_gff : TbxConf := ⟨0, 1, 4, 5, '#', 0⟩
def tbx_conf_bed : TbxConf := ⟨TBX_UCSC, 1, 2, 3, '#', 0⟩
def tbx_conf_psltbl : TbxConf := ⟨TBX_UCSC, 15, 17, 18, '#', 0⟩
def tbx_conf_sam : TbxConf := ⟨TBX_SAM, 3, 4, 0, '@', 0⟩
def tbx_conf_vcf : TbxConf := ⟨TBX_VCF, 1, 2, 0, '#', 0⟩
def tbx_conf_gaf : TbxConf := ⟨TBX_GAF, 1, 6, 0, '#', 0⟩

/-! ## Parser state -/

/-- The warnings `tbx_parse1` can log: `negCoord` is the
"Coordinate <= 0 detected" message, `badInfoEnd` the
"VCF INFO/END is smaller than POS" message. -/
inductive TbxWarn where
  | negCoord
  | badInfoEnd
deriving DecidableEq, Repr

/-- The locals of `tbx_parse1` together with the `tbx_intv_t` out-fields and
the observable log: `ss` is the name slice as (start, end) offsets into the
line, `en` is `intv->end`, `reported` the per-process static latch of the
INFO/END warning. -/
structure ParseSt where
  ss : Option (Nat × Nat)
  beg : Int
  en : Int
  alcnt : Nat
  getlen : Bool
  use_svlen : Bool
  lenpos : Option Nat
  svflags : List Nat
  reflen : Int
  svlen : Int
  fmtlen : Int
  warns : List TbxWarn
  reported : Bool
deriving DecidableEq, Repr

/-- Outcome of processing one field: continue, `break` out of the field
loop, or `return -1`. -/
inductive FieldOut where
  | cont (st : ParseSt)
  | brk (st : ParseSt)
  | fail (st : ParseSt)
deriving DecidableEq, Repr

/-! ## Per-preset field handlers -/

/-- The GAF begin-column loop: `for (s = line+b+1; s < line+i;)` parsing
node ids with `strtoll(s, &t, 0)` and advancing `s = t + 1`; tracks the
min/max with `intv->beg == -1` as the first-assignment sentinel.  `fuel`
is a bound on the number of iterations (each advances `pos` by at least
one): with `fuel ≥ stop - pos` it never runs out before `pos ≥ stop`, so
`gafScan` below is exactly the C loop. -/
def gafGo (line : List Char) (stop : Nat) : Nat → Nat → Int → Int → Int × Int
  | 0, _, b, e => (b, e)
  | fuel + 1, pos, b, e =>
    if pos < stop then
      let (v, n) := strtoll (line.drop pos) 0
      let (b', e') := if b = -1 then (v, v) else (min b v, max e v)
      gafGo line stop fuel (pos + n + 1) b' e'
    else (b, e)

def gafScan (line : List Char) (pos stop : Nat) (b e : Int) : Int × Int :=
  gafGo line stop (stop - pos) pos b e

/-- The begin-column handler (`id == conf->bc`). -/
def bcField (conf : TbxConf) (line : List Char) (b : Nat) (f : List Char)
    (st : ParseSt) : FieldOut :=
  if conf.preset &&& 0xffff = TBX_GAF then
    let (b', e') := gafScan line (b + 1) (b + f.length) st.beg st.en
    .cont { st with beg := b', en := e' }
  else
    let (v, n) := strtoll (line.drop b) 0
    let st1 := { st with beg := v }
    let st2 := if conf.bc ≤ conf.ec then { st1 with en := st1.beg } else st1
    if n = 0 then .fail st2
    else
      let st3 :=
        if conf.preset &&& TBX_UCSC = 0 then { st2 with beg := st2.beg - 1 }
        else if conf.bc ≤ conf.ec then { st2 with en := st2.en + 1 }
        else st2
      let st4 :=
        if st3.beg < 0 then
          { st3 with warns := st3.warns ++ [.negCoord], beg := 0 }
        else st3
      let st5 := if st4.en < 1 then { st4 with en := 1 } else st4
      .cont st5

/-- The SAM CIGAR loop: `strtol` runs with the operator character read at
the end pointer, summing lengths of M, D and N operations.  Fuelled like
`gafGo`. -/
def cigarGo (line : List Char) (stop : Nat) : Nat → Nat → Int → Int
  | 0, _, l => l
  | fuel + 1, pos, l =>
    if pos < stop then
      let (x, n) := strtoll (line.drop pos) 10
      let op := toUpperC ((line.drop (pos + n)).headD '\x00')
      let l' := if op = 'M' ∨ op = 'D' ∨ op = 'N' then l + x else l
      cigarGo line stop fuel (pos + n + 1) l'
    else l

def cigarScan (line : List Char) (pos stop : Nat) (l : Int) : Int :=
  cigarGo line stop (stop - pos) pos l

/-- Modelled from the spec: `svlen_on_ref_for_vcf_alt` is declared in the
repository's VCF module, which is not among the staged source files.  The
spec (§4.5) takes as SVLEN-relevant exactly the symbolic ALT alleles: ALT
strings of the form `<…>` other than `<*>` and `<NON_REF>`. -/
def svlen_on_ref_for_vcf_alt (s : List Char) : Bool :=
  2 ≤ s.length ∧ s.headD '\x00' = '<' ∧ s.getLastD '\x00' = '>' ∧
    s ≠ "<*>".toList ∧ s ≠ "<NON_REF>".toList

/-- Accumulator of the ALT-column scan: the running allele counter
(`alcnt`), the set of allele indices whose SVLEN applies on the reference
(the bits of `svlenals`), and the `getlen` / `use_svlen` flags. -/
structure AltAcc where
  alcnt : Nat
  svflags : List Nat
  getlen : Bool
  use_svlen : Bool
deriving DecidableEq, Repr

/-- One allele of the ALT column: `++alcnt`, then classify; the flag bit
index is the pre-increment counter (`alcnt - 1` after the increment). -/
def altStep (al : List Char) (a : AltAcc) : AltAcc :=
  if svlen_on_ref_for_vcf_alt al then
    { a with alcnt := a.alcnt + 1, svflags := a.svflags ++ [a.alcnt], use_svlen := true }
  else if al = "<*>".toList ∨ al = "<NON_REF>".toList then
    { a with alcnt := a.alcnt + 1, getlen := true }
  else { a with alcnt := a.alcnt + 1 }

/-- The ALT-column do/while loop over the comma-separated alleles,
continuing `while (t && alcnt < 65536)`. -/
def altScanGo : List (List Char) → AltAcc → AltAcc
  | [], a => a
  | al :: rest, a =>
    let a' := altStep al a
    if rest ≠ [] ∧ a'.alcnt < 65536 then altScanGo rest a' else a'

/-- Position just after the INFO `END=` key: at the field start, or after a
`;END=`; `none` when the key is not found that way. -/
def infoEndPtr (f : List Char) : Option (List Char) :=
  match firstIdxOfSub ("END=".toList) f with
  | some 0 => some (f.drop 4)
  | some _ => (firstIdxOfSub (";END=".toList) f).map (fun j => f.drop (j + 5))
  | none => none

/-- Position just after the INFO `SVLEN=` key, as for `infoEndPtr`. -/
def svlenPtr (f : List Char) : Option (List Char) :=
  match firstIdxOfSub ("SVLEN=".toList) f with
  | some 0 => some (f.drop 6)
  | some _ => (firstIdxOfSub (";SVLEN=".toList) f).map (fun j => f.drop (j + 7))
  | none => none

/-- The INFO SVLEN loop: `while (s && d < alcnt)` over the comma-separated
values after `SVLEN=`; flagged alleles contribute `llabs(atoll(s))`, the
others contribute 1, folded with max into `svlen`. -/
def svlenGo (alcnt : Nat) (usesv : Bool) (flags : List Nat) :
    List (List Char) → Nat → Int → Int
  | [], _, acc => acc
  | tk :: rest, d, acc =>
    if d < alcnt then
      let t0 := atoll tk
      let tmp : Int := if usesv ∧ d ∈ flags then (if t0 < 0 then -t0 else t0) else 1
      svlenGo alcnt usesv flags rest (d + 1) (if acc < tmp then tmp else acc)
    else acc

/-- The `END=` half of the INFO-column handler: lookup with the
once-per-process warning for `END <= beg`. -/
def infoEndUpd (f : List Char) (st : ParseSt) : ParseSt :=
  match infoEndPtr f with
  | none => st
  | some s =>
    if s.headD '\x00' ≠ '.' then
      let e : Int := (strtoll s 0).1
      if e ≤ st.beg then
        if st.reported then st
        else { st with warns := st.warns ++ [.badInfoEnd], reported := true }
      else { st with en := e }
    else st

/-- The INFO-column handler (`id == 8`): the `END=` lookup, then the SVLEN
scan. -/
def infoField (f : List Char) (st : ParseSt) : ParseSt :=
  let st1 := infoEndUpd f st
  match svlenPtr f with
  | none => st1
  | some sv =>
    { st1 with
      svlen := svlenGo st1.alcnt st1.use_svlen st1.svflags (splitOnCh ',' sv) 1 st1.svlen }

/-- `LEN` value for one sample column given the position of `LEN` in
FORMAT; 0 when the sample has fewer `:`-separated entries. -/
def sampleLen (f : List Char) (p : Nat) : Int :=
  atoll ((splitOnCh ':' f).getD p [])

/-- The VCF-preset branch for columns other than `sc`/`bc`. -/
def vcfField (id _b : Nat) (f : List Char) (st : ParseSt) : FieldOut :=
  if id = 4 then
    let st1 := if f ≠ [] then { st with en := st.beg + f.length } else st
    .cont { st1 with alcnt := st1.alcnt + 1, reflen := (f.length : Int) }
  else if id = 5 then
    let a := altScanGo (splitOnCh ',' f) ⟨st.alcnt, st.svflags, st.getlen, st.use_svlen⟩
    .cont { st with alcnt := a.alcnt, svflags := a.svflags,
                    getlen := a.getlen, use_svlen := a.use_svlen }
  else if id = 8 then .cont (infoField f st)
  else if st.getlen ∧ id = 9 then
    match (splitOnCh ':' f).findIdx? (fun t => t = "LEN".toList) with
    | some p => .cont { st with lenpos := some p }
    | none => .brk st
  else if 9 < id ∧ st.getlen ∧ st.lenpos ≠ none then
    let tmp := sampleLen f (st.lenpos.getD 0)
    .cont { st with fmtlen := if st.fmtlen < tmp then tmp else st.fmtlen }
  else .cont st

/-- One field of the `tbx_parse1` loop (the `id` tests, in source order). -/
def procField (conf : TbxConf) (line : List Char) (id b : Nat) (f : List Char)
    (st : ParseSt) : FieldOut :=
  if id = conf.sc then .cont { st with ss := some (b, b + f.length) }
  else if id = conf.bc then bcField conf line b f st
  else if conf.preset &&& 0xffff = TBX_GENERIC then
    if id = conf.ec then
      let (v, n) := strtoll (line.drop b) 0
      if n = 0 then .fail { st with en := v } else .cont { st with en := v }
    else .cont st
  else if conf.preset &&& 0xffff = TBX_SAM then
    if id = 6 then
      let l := cigarScan line b (b + f.length) 0
      let l' := if l = 0 then 1 else l
      .cont { st with en := st.beg + l' }
    else .cont st
  else if conf.preset &&& 0xffff = TBX_VCF then vcfField id b f st
  else .cont st

/-- The field loop of `tbx_parse1`: fields in order with 1-based `id`;
the second component records an early `return -1`. -/
def runFields (conf : TbxConf) (line : List Char) :
    Nat → List (Nat × List Char) → ParseSt → ParseSt × Bool
  | _, [], st => (st, false)
  | id, (b, f) :: rest, st =>
    match procField conf line id b f st with
    | .cont st' => runFields conf line (id + 1) rest st'
    | .brk st' => (st', false)
    | .fail st' => (st', true)

/-- The C ternary chain computing `max(reflen, svlen, fmtlen)`. -/
def c3max (reflen svlen fmtlen : Int) : Int :=
  if reflen < svlen then (if svlen < fmtlen then fmtlen else svlen)
  else (if reflen < fmtlen then fmtlen else reflen)

/-- Result of `tbx_parse1`: the return code, the `tbx_intv_t` fields, the
warnings logged during the call and the updated warning latch. -/
structure ParseOut where
  ret : Int
  ss : Option (Nat × Nat)
  beg : Int
  en : Int
  warns : List TbxWarn
  reported : Bool
deriving DecidableEq, Repr

/-- The initial state of `tbx_parse1` (line 160 of the source and the
zero-initialised locals), with the warning latch `reported0` passed in. -/
def parseInit (reported0 : Bool) : ParseSt :=
  { ss := none, beg := -1, en := -1, alcnt := 0, getlen := false,
    use_svlen := false, lenpos := none, svflags := [], reflen := 0,
    svlen := 0, fmtlen := 0, warns := [], reported := reported0 }

/-- The final check of `tbx_parse1` (line 367 of the source), with `en`
the value of `intv->end` after the VCF fix-up (which touches no other
field). -/
def parseCheck (st : ParseSt) (en : Int) : ParseOut :=
  if st.ss = none ∨ st.beg < 0 ∨ en < 0 then
    ⟨-1, st.ss, st.beg, en, st.warns, st.reported⟩
  else ⟨0, st.ss, st.beg, en, st.warns, st.reported⟩

/-- The epilogue of `tbx_parse1`: on an early `return -1` pass it through;
otherwise apply the final VCF `end` fix-up and the final check. -/
def parseFinish (conf : TbxConf) (r : ParseSt × Bool) : ParseOut :=
  if r.2 then ⟨-1, r.1.ss, r.1.beg, r.1.en, r.1.warns, r.1.reported⟩
  else
    parseCheck r.1
      (if conf.preset &&& 0xffff = TBX_VCF then
        let tmp := c3max r.1.reflen r.1.svlen r.1.fmtlen + r.1.beg
        if r.1.en < tmp then tmp else r.1.en
      else r.1.en)

/-- `tbx_parse1(conf, len, line, intv)`, with the INFO/END warning latch
`reported0` passed in (it is a per-process `static` in C) and returned. -/
def tbx_parse1 (conf : TbxConf) (line : List Char) (reported0 : Bool) : ParseOut :=
  parseFinish conf (runFields conf line 1 (splitFieldsPos line 0) (parseInit reported0))

/-! ## The reference dictionary (`get_tid`, khash `s2i`)

The khash map from name to id is modelled by the list of names in
insertion order: `kh_put` with `kh_val = kh_size - 1` on a fresh key is an
append returning the old size, a hit returns the stored value. -/

/-- Index of a name in the dictionary. -/
def dictFind : List (List Char) → List Char → Option Nat
  | [], _ => none
  | x :: xs, nm => if x = nm then some 0 else (dictFind xs nm).map (· + 1)

/-- `get_tid(tbx, ss, is_add)`: constant 0 for the GAF preset; otherwise
lookup, inserting on `is_add` with the new id equal to the old size. -/
def get_tid (preset : Nat) (d : List (List Char)) (ss : List Char)
    (is_add : Bool) : List (List Char) × Int :=
  if preset &&& 0xffff = TBX_GAF then (d, 0)
  else if is_add then
    match dictFind d ss with
    | some k => (d, (k : Int))
    | none => (d ++ [ss], (d.length : Int))
  else
    match dictFind d ss with
    | some k => (d, (k : Int))
    | none => (d, -1)

/-- `tbx_name2id`: lookup without insertion. -/
def tbx_name2id (preset : Nat) (d : List (List Char)) (ss : List Char) : Int :=
  (get_tid preset d ss false).2

/-- A sequence of `get_tid(…, 1)` calls (the builder interning names, or
`index_load` walking the NUL-separated names block in order): the final
dictionary and the id returned for each call. -/
def runAdds (preset : Nat) (d : List (List Char)) :
    List (List Char) → List (List Char) × List Int
  | [] => (d, [])
  | nm :: rest =>
    let r := get_tid preset d nm true
    let t := runAdds preset r.1 rest
    (t.1, r.2 :: t.2)

/-! ## `adjust_n_lvls` -/

/-- Modelled from the spec: `hts_bin_maxpos` lives in the repository's
`hts.h`, not among the staged files; the spec (§3.2) defines
`max_pos(min_shift, n_lvls) = 1 << (min_shift + 3·n_lvls)`. -/
def hts_bin_maxpos (min_shift n_lvls : Nat) : Int :=
  ((2 ^ (min_shift + 3 * n_lvls) : Nat) : Int)

/-- The loop `for (; max_len > s; ++n_lvls, s <<= 3) {}`.  At every call
`s` is a positive power of two; the `0 < s` conjunct only serves
termination and never changes the result on those calls. -/
def adjustGo (L : Int) (n : Nat) (s : Int) : Nat :=
  if s < L ∧ 0 < s then adjustGo L (n + 1) (s * 8) else n
termination_by (L - s).toNat
decreasing_by omega

/-- `adjust_n_lvls(min_shift, n_lvls, max_len)`. -/
def adjust_n_lvls (min_shift n_lvls : Nat) (max_len : Int) : Nat :=
  adjustGo (max_len + 256) n_lvls (hts_bin_maxpos min_shift n_lvls)

/-! ## `hts_parse_region` -/

def HTS_PARSE_THOUSANDS_SEP : Nat := 1
def HTS_PARSE_ONE_COORD : Nat := 2
def HTS_PARSE_LIST : Nat := 4

/-- `HTS_POS_MAX = ((int64_t)INT_MAX << 32) | INT_MAX` (from `hts.h`). -/
def HTS_POS_MAX : Int := (2 ^ 31 - 1) * 2 ^ 32 + (2 ^ 31 - 1)

/-- Why `hts_parse_region` returned NULL (it logs a distinct message at
each failing return; `notFound`/`emptyRange` return silently). -/
inductive RegionErr where
  | braces
  | ambiguous
  | notFound
  | headerFail
  | coordNonPos
  | trailing
  | emptyRange
deriving DecidableEq, Repr

/-- Result of `hts_parse_region`: `ok tid beg en rest` bundles the three
out-parameters with the returned pointer as an offset into `s`; `fail`
bundles the NULL return with the value left in `*tid`. -/
inductive RegionRes where
  | ok (tid : Int) (beg : Int) (en : Int) (rest : Nat)
  | fail (tid : Int) (err : RegionErr)
deriving DecidableEq, Repr

/-- First occurrence of `c` in `cs` (C `strchr`/`memchr` on a NUL-free
string). -/
def firstIdxOfCh (c : Char) : List Char → Option Nat
  | [] => none
  | a :: rest => if a = c then some 0 else (firstIdxOfCh c rest).map (· + 1)

/-- `hts_memrchr(s, c, n)`: rightmost occurrence of `c` among the first
`n` characters. -/
def hts_memrchr (cs : List Char) (c : Char) (n : Nat) : Option Nat :=
  lastIdxOfCh c (cs.take n)

/-- Modelled from the spec: `hts_parse_decimal` is defined in the
repository's `hts.c`, not among the staged files.  Per the spec (§4.6) it
parses an optionally signed decimal number, allowing `,` thousands
separators between digits when `HTS_PARSE_THOUSANDS_SEP` is set; it
returns the value and the number of characters consumed (0 when no digit
was found). -/
def hts_parse_decimal (cs : List Char) (fl : Nat) : Int × Nat :=
  let (neg, nsign, r) :=
    match cs with
    | '-' :: r => (true, 1, r)
    | '+' :: r => (false, 1, r)
    | r => (false, 0, r)
  let sep := fl &&& HTS_PARSE_THOUSANDS_SEP ≠ 0
  let run := r.takeWhile (fun c => c.isDigit ∨ (sep ∧ c = ','))
  let digits := run.filter (fun c => c.isDigit)
  if digits.length = 0 then (0, 0)
  else
    let v : Nat := digits.foldl (fun a c => a * 10 + (c.toNat - 48)) 0
    ((if neg then -(v : Int) else (v : Int)), nsign + run.length)

/-- Closing step of the coordinate parse: `if (*end == 0) *end = HTS_POS_MAX;
if (*beg >= *end) return NULL; return s_end;`. -/
def regionFin (tid beg en : Int) (rest : Nat) : RegionRes :=
  let en' := if en = 0 then HTS_POS_MAX else en
  if beg ≥ en' then .fail tid .emptyRange else .ok tid beg en' rest

/-- The post-colon coordinate parse of `hts_parse_region` (everything
after the reference name has resolved to `tid ≥ 0`). -/
def regionCoords (s : List Char) (fl : Nat) (tid : Int) (colon : Nat)
    (rest : Nat) : RegionRes :=
  let (v1, n1) := hts_parse_decimal (s.drop (colon + 1)) fl
  let beg := v1 - 1
  let hy := colon + 1 + n1
  let hyc := s.getD hy '\x00'
  let step2 : RegionRes :=
    if hyc = '\x00' ∨ (fl &&& HTS_PARSE_LIST ≠ 0 ∧ hyc = ',') then
      regionFin tid beg
        (if fl &&& HTS_PARSE_ONE_COORD ≠ 0 then beg + 1 else HTS_POS_MAX) rest
    else if hyc = '-' then
      let (v2, n2) := hts_parse_decimal (s.drop (hy + 1)) fl
      let h2c := s.getD (hy + 1 + n2) '\x00'
      if h2c ≠ '\x00' ∧ h2c ≠ ',' then .fail tid .trailing
      else regionFin tid beg v2 rest
    else .fail tid .trailing
  if beg < 0 then
    if beg ≠ -1 ∧ hyc = '-' ∧ s.getD (colon + 1) '\x00' ≠ '\x00' then
      .fail tid .coordNonPos
    else if hyc.isDigit ∨ hyc = '\x00' ∨ hyc = ',' then
      .ok tid 0 (if beg = -1 then HTS_POS_MAX else -(beg + 1)) rest
    else if beg < -1 then .fail tid .trailing
    else step2
  else step2

/-- `hts_parse_region(s, tid, beg, end, getid, hdr, flags)`; the header
argument is folded into the `getid` resolver, and the (always successful
here) kstring allocations are elided. -/
def hts_parse_region (s : List Char) (getid : List Char → Int) (flags : Nat) :
    RegionRes :=
  let sLen0 := s.length
  let fl :=
    if flags &&& HTS_PARSE_LIST ≠ 0 then 2 * (flags / 2)
    else flags ||| HTS_PARSE_THOUSANDS_SEP
  if s.headD '\x00' = '{' then
    match firstIdxOfCh '}' s with
    | none => .fail (-1) .braces
    | some close =>
      let start := 1
      let colon : Option Nat :=
        if s.getD (close + 1) '\x00' = ':' then some (close + 1) else none
      let (sLen, sEnd) :=
        if fl &&& HTS_PARSE_LIST ≠ 0 then
          match (firstIdxOfCh ',' (s.drop close)).map (· + close) with
          | some ci => (ci - start, ci + 1)
          | none => (sLen0 - 1, sLen0)
        else (sLen0 - 1, sLen0)
      match colon with
      | none =>
        let nm := (s.drop start).take (sLen - 1)
        let tid := getid nm
        if tid ≥ 0 then .ok tid 0 HTS_POS_MAX sEnd else .fail tid .notFound
      | some colonIdx =>
        let nm := (s.drop start).take (colonIdx - start - 1)
        let tid := getid nm
        if tid < 0 then .fail tid .notFound
        else regionCoords s fl tid colonIdx sEnd
  else
    let (sLen, sEnd) :=
      if fl &&& HTS_PARSE_LIST ≠ 0 then
        match firstIdxOfCh ',' s with
        | some ci => (ci, ci + 1)
        | none => (sLen0, sLen0)
      else (sLen0, sLen0)
    match hts_memrchr s ':' sLen with
    | none =>
      let nm := s.take sLen
      let tid := getid nm
      if tid ≥ 0 then .ok tid 0 HTS_POS_MAX sEnd else .fail tid .notFound
    | some colonIdx =>
      let whole := s.take sLen
      let t := getid whole
      if t ≥ 0 then
        if getid (s.take colonIdx) ≥ 0 then .fail (-1) .ambiguous
        else .ok t 0 HTS_POS_MAX sEnd
      else if t < -1 then .fail t .headerFail
      else
        let nm := s.take colonIdx
        let tid := getid nm
        if tid < 0 then .fail tid .notFound
        else regionCoords s fl tid colonIdx sEnd

/-! ## The buffered parser (explicit in-place writes)

`tbx_parse1` borrows substrings from the caller's buffer by writing a
temporary NUL over a separator, calling a C string routine, and writing
the saved character back.  To state the frame property "the buffer is
byte-for-byte unchanged on return", this second rendering of the parser
threads the buffer through every such write/restore pair instead of
pre-extracting the fields.  Field boundaries, discovered by the C loop
from the (restored) buffer, are taken from the original line. -/

/-- C `strchr` inside a buffer: scan from `pos` for `c`, stopping at a NUL
(or at the end of the buffer, which the C code never reaches because a NUL
was planted at the field end).  The result carries its bounds and the fact
that the found position holds `c`, which both termination and the restore
arguments need. -/
def strchrNul (buf : List Char) (c : Char) (pos : Nat) :
    Option { t : Nat // pos ≤ t ∧ t < buf.length ∧ buf.getD t '\x00' = c } :=
  if h : pos < buf.length then
    if buf.getD pos '\x00' = '\x00' then none
    else if hc : buf.getD pos '\x00' = c then some ⟨pos, Nat.le_refl _, h, hc⟩
    else
      (strchrNul buf c (pos + 1)).map
        (fun t => ⟨t.1, Nat.le_of_succ_le t.2.1, t.2.2⟩)
  else none
termination_by buf.length - pos
decreasing_by omega

/-- The NUL-terminated C string starting at `pos` in the buffer. -/
def readCStr (buf : List Char) (pos : Nat) : List Char :=
  (buf.drop pos).takeWhile (fun c => c ≠ '\x00')

/-- The ALT do/while loop with its `*t = 0` / `*t = ','` write pairs. -/
def altLoopBuf (buf : List Char) (s : Nat) (a : AltAcc) : List Char × AltAcc :=
  match strchrNul buf ',' s with
  | none =>
    (buf, altStep (readCStr buf s) a)
  | some tp =>
    let buf2 := buf.set tp.1 '\x00'
    let a' := altStep (readCStr buf2 s) a
    let buf3 := buf2.set tp.1 ','
    if a'.alcnt < 65536 then altLoopBuf buf3 (tp.1 + 1) a' else (buf3, a')
termination_by buf.length - s
decreasing_by
  simp only [List.length_set]
  obtain ⟨_h1, _h2, -⟩ := tp.2
  omega

/-- The FORMAT scan with its `*t = '\0'` / `*t = ':'` write pairs,
returning the position of the first `LEN` entry. -/
def fmtLoopBuf (buf : List Char) (s pos : Nat) : List Char × Option Nat :=
  match strchrNul buf ':' s with
  | none => (buf, if readCStr buf s = "LEN".toList then some pos else none)
  | some tp =>
    let buf2 := buf.set tp.1 '\x00'
    let tok := readCStr buf2 s
    let buf3 := buf2.set tp.1 ':'
    if tok = "LEN".toList then (buf3, some pos)
    else fmtLoopBuf buf3 (tp.1 + 1) (pos + 1)
termination_by buf.length - s
decreasing_by
  simp only [List.length_set]
  obtain ⟨_h1, _h2, -⟩ := tp.2
  omega

/-- The ALT-column handler on the buffer: save `line[i]`, plant a NUL, run
the allele loop, restore. -/
def altFieldBuf (buf : List Char) (b i : Nat) (st : ParseSt) :
    List Char × ParseSt :=
  let c := buf.getD i '\x00'
  let buf1 := buf.set i '\x00'
  let r := altLoopBuf buf1 b ⟨st.alcnt, st.svflags, st.getlen, st.use_svlen⟩
  (r.1.set i c,
   { st with alcnt := r.2.alcnt, svflags := r.2.svflags,
             getlen := r.2.getlen, use_svlen := r.2.use_svlen })

/-- The INFO-column handler on the buffer: the only write pair is
`line[i] = 0` / `line[i] = c`; the `END=`/`SVLEN=` scans read the
NUL-terminated field in place. -/
def infoFieldBuf (buf : List Char) (b i : Nat) (st : ParseSt) :
    List Char × ParseSt :=
  let c := buf.getD i '\x00'
  let buf1 := buf.set i '\x00'
  let st' := infoField (readCStr buf1 b) st
  (buf1.set i c, st')

/-- The FORMAT-column handler on the buffer. -/
def fmtFieldBuf (buf : List Char) (b i : Nat) (st : ParseSt) :
    List Char × FieldOut :=
  let c := buf.getD i '\x00'
  let buf1 := buf.set i '\x00'
  let r := fmtLoopBuf buf1 b 0
  let buf' := r.1.set i c
  match r.2 with
  | some p => (buf', .cont { st with lenpos := some p })
  | none => (buf', .brk st)

/-- A sample-column handler on the buffer. -/
def sampleFieldBuf (buf : List Char) (b i : Nat) (st : ParseSt) :
    List Char × ParseSt :=
  let c := buf.getD i '\x00'
  let buf1 := buf.set i '\x00'
  let tmp := sampleLen (readCStr buf1 b) (st.lenpos.getD 0)
  (buf1.set i c, { st with fmtlen := if st.fmtlen < tmp then tmp else st.fmtlen })

/-- The VCF-preset branch on the buffer (mirrors `vcfField`). -/
def vcfFieldBuf (buf : List Char) (id b : Nat) (f : List Char) (st : ParseSt) :
    List Char × FieldOut :=
  if id = 4 then
    let st1 := if f ≠ [] then { st with en := st.beg + f.length } else st
    (buf, .cont { st1 with alcnt := st1.alcnt + 1, reflen := (f.length : Int) })
  else if id = 5 then
    let r := altFieldBuf buf b (b + f.length) st
    (r.1, .cont r.2)
  else if id = 8 then
    let r := infoFieldBuf buf b (b + f.length) st
    (r.1, .cont r.2)
  else if st.getlen ∧ id = 9 then
    fmtFieldBuf buf b (b + f.length) st
  else if 9 < id ∧ st.getlen ∧ st.lenpos ≠ none then
    let r := sampleFieldBuf buf b (b + f.length) st
    (r.1, .cont r.2)
  else (buf, .cont st)

/-- One field of the loop, on the buffer (mirrors `procField`; the sc, bc,
GENERIC and SAM branches only read). -/
def procFieldBuf (conf : TbxConf) (buf : List Char) (id b : Nat)
    (f : List Char) (st : ParseSt) : List Char × FieldOut :=
  if id = conf.sc then (buf, .cont { st with ss := some (b, b + f.length) })
  else if id = conf.bc then (buf, bcField conf buf b f st)
  else if conf.preset &&& 0xffff = TBX_GENERIC then
    if id = conf.ec then
      let (v, n) := strtoll (buf.drop b) 0
      (buf, if n = 0 then .fail { st with en := v } else .cont { st with en := v })
    else (buf, .cont st)
  else if conf.preset &&& 0xffff = TBX_SAM then
    if id = 6 then
      let l := cigarScan buf b (b + f.length) 0
      let l' := if l = 0 then 1 else l
      (buf, .cont { st with en := st.beg + l' })
    else (buf, .cont st)
  else if conf.preset &&& 0xffff = TBX_VCF then vcfFieldBuf buf id b f st
  else (buf, .cont st)

/-- The field loop threading the buffer. -/
def runFieldsBuf (conf : TbxConf) :
    List Char → Nat → List (Nat × List Char) → ParseSt →
      List Char × ParseSt × Bool
  | buf, _, [], st => (buf, st, false)
  | buf, id, (b, f) :: rest, st =>
    match procFieldBuf conf buf id b f st with
    | (buf', .cont st') => runFieldsBuf conf buf' (id + 1) rest st'
    | (buf', .brk st') => (buf', st', false)
    | (buf', .fail st') => (buf', st', true)

/-- `tbx_parse1` with the caller's buffer threaded through every in-place
write: the first component is the buffer as the function returns.  Field
boundaries are those of the original line; every temporary write is
restored before the next boundary is read, so the C loop discovers the
same boundaries. -/
def tbx_parse1_buf (conf : TbxConf) (line : List Char) (reported0 : Bool) :
    List Char × ParseOut :=
  let r := runFieldsBuf conf line 1 (splitFieldsPos line 0) (parseInit reported0)
  (r.1, parseFinish conf r.2)

/-! ## Spec-side definitions

These follow the wording of the specification (and of the claims under
check), to be compared with the embedded code above. -/

/-- The ALT-column classification of a line, as the code performs it when
the REF column was seen (allele counter starting at 1). -/
def vcfSpecAlt (line : List Char) : AltAcc :=
  altScanGo (splitOnCh ',' (fieldN line 5)) ⟨1, [], false, false⟩

/-- `INFO/END` contribution: the END value when the key is present, its
value is not `.`, and it is strictly greater than `beg`. -/
def vcfSpecValidEnd (line : List Char) (beg : Int) : Option Int :=
  match infoEndPtr (fieldN line 8) with
  | none => none
  | some s =>
    if s.headD '\x00' ≠ '.' then
      let e := (strtoll s 0).1
      if beg < e then some e else none
    else none

/-- The SVLEN-derived length: over the comma-separated values after
`SVLEN=`, a symbolic ALT contributes its absolute SVLEN, any other allele
position contributes 1; 0 when the key is absent. -/
def vcfSpecSvlen (line : List Char) : Int :=
  let a := vcfSpecAlt line
  match svlenPtr (fieldN line 8) with
  | none => 0
  | some sv => svlenGo a.alcnt a.use_svlen a.svflags (splitOnCh ',' sv) 1 0

/-- The FORMAT/LEN-derived length: when a `<*>`/`<NON_REF>` ALT was seen
and FORMAT has a `LEN` entry, the maximum of `LEN` over all sample
columns; 0 otherwise. -/
def vcfSpecFmtLen (line : List Char) : Int :=
  if (vcfSpecAlt line).getlen then
    match (splitOnCh ':' (fieldN line 9)).findIdx? (fun t => t = "LEN".toList) with
    | some p =>
      (((splitFieldsPos line 0).map Prod.snd).drop 9).foldl
        (fun m f => max m (sampleLen f p)) 0
    | none => 0
  else 0

/-- The specification's `end` for a VCF line, as a single maximum over the
independently extracted contributions (with the floor of 1 established at
the begin column). -/
def vcfSpecEnd (line : List Char) (beg : Int) : Int :=
  let base :=
    max (max 1 (beg + (fieldN line 4).length))
      (max (beg + vcfSpecSvlen line) (beg + vcfSpecFmtLen line))
  match vcfSpecValidEnd line beg with
  | some e => max base e
  | none => base

/-- The claimed `end` for a VCF line as claim C1 words it: maximum of
`begin + len(REF)`, `begin + |SVLEN|` over the symbolic ALT alleles,
`INFO/END` when strictly greater than `begin`, and `begin + FORMAT/LEN`
taken from the first sample column only. -/
def vcfClaimEnd (line : List Char) (beg : Int) : Int :=
  let a := vcfSpecAlt line
  let svSym : Int :=
    match svlenPtr (fieldN line 8) with
    | none => 0
    | some sv =>
      ((splitOnCh ',' sv).enumFrom 1).foldl
        (fun m tv =>
          if tv.1 ∈ a.svflags then
            max m (if atoll tv.2 < 0 then -(atoll tv.2) else atoll tv.2)
          else m) 0
  let fl1 : Int :=
    if a.getlen then
      match (splitOnCh ':' (fieldN line 9)).findIdx? (fun t => t = "LEN".toList) with
      | some p => sampleLen (fieldN line 10) p
      | none => 0
    else 0
  let base := max (max (beg + (fieldN line 4).length) (beg + svSym)) (beg + fl1)
  match vcfSpecValidEnd line beg with
  | some e => max base e
  | none => base

/-- The state carried by any of the three outcomes. -/
def FieldOut.st : FieldOut → ParseSt
  | .cont s => s
  | .brk s => s
  | .fail s => s

/-- A sequence of `tbx_parse1` calls in one process: the warning latch is
threaded from call to call and all warnings are collected. -/
def tbx_parse_calls : List (TbxConf × List Char) → Bool → List TbxWarn
  | [], _ => []
  | p :: rest, rep =>
    let o := tbx_parse1 p.1 p.2 rep
    o.warns ++ tbx_parse_calls rest o.reported

/-! # Theorems -/

/-! ## Return-code shape of `tbx_parse1` -/

/-- `tbx_parse1` returns −1 or 0, and 0 only after the final check that the
name slice is set and both coordinates are nonnegative. -/
theorem parseCheck_cases (st : ParseSt) (en : Int) :
    (parseCheck st en).ret = -1 ∨
    ((parseCheck st en).ret = 0 ∧ (parseCheck st en).ss ≠ none ∧
      0 ≤ (parseCheck st en).beg ∧ 0 ≤ (parseCheck st en).en) := by
  unfold parseCheck
  split
  · exact Or.inl rfl
  · next hc =>
    push_neg at hc
    exact Or.inr ⟨rfl, hc.1, show 0 ≤ st.beg by omega, show 0 ≤ en by omega⟩

theorem parseFinish_cases (conf : TbxConf) (r : ParseSt × Bool) :
    (parseFinish conf r).ret = -1 ∨
    ((parseFinish conf r).ret = 0 ∧ (parseFinish conf r).ss ≠ none ∧
      0 ≤ (parseFinish conf r).beg ∧ 0 ≤ (parseFinish conf r).en) := by
  unfold parseFinish
  split
  · exact Or.inl rfl
  · exact parseCheck_cases r.1 _

theorem tbx_parse1_ret_cases (conf : TbxConf) (line : List Char) (rep : Bool) :
    (tbx_parse1 conf line rep).ret = -1 ∨
    ((tbx_parse1 conf line rep).ret = 0 ∧ (tbx_parse1 conf line rep).ss ≠ none ∧
      0 ≤ (tbx_parse1 conf line rep).beg ∧ 0 ≤ (tbx_parse1 conf line rep).en) :=
  parseFinish_cases conf _

/-- Claim C3 (amended): for every preset, a successfully parsed line has
`begin ≥ 0` and `end ≥ 0`; the clamp to `end ≥ 1` belongs to the non-GAF
begin-column handler only and a GAF line can return `end = 0`
(`gaf_end_zero_counterexample`). -/
theorem parse_success_coords_nonneg (conf : TbxConf) (line : List Char)
    (rep : Bool) (h : (tbx_parse1 conf line rep).ret = 0) :
    0 ≤ (tbx_parse1 conf line rep).beg ∧ 0 ≤ (tbx_parse1 conf line rep).en := by
  rcases tbx_parse1_ret_cases conf line rep with hc | hc
  · rw [hc] at h
    exact absurd h (by decide)
  · exact ⟨hc.2.2.1, hc.2.2.2⟩

/-- Witness for `parse_success_coords_nonneg` at a concrete BED line. -/
theorem parse_success_coords_nonneg_witness :
    (tbx_parse1 tbx_conf_bed ("chr1\t10\t20".toList) false).ret = 0 ∧
    (0 ≤ (tbx_parse1 tbx_conf_bed ("chr1\t10\t20".toList) false).beg ∧
      0 ≤ (tbx_parse1 tbx_conf_bed ("chr1\t10\t20".toList) false).en) :=
  ⟨by decide, parse_success_coords_nonneg tbx_conf_bed ("chr1\t10\t20".toList)
    false (by decide)⟩

/-- Counterexample to claim C3 as stated: a GAF line whose only node id is
0 parses successfully with `end = 0`, not `end ≥ 1`. -/
theorem gaf_end_zero_counterexample :
    (tbx_parse1 tbx_conf_gaf ("A\tb\tc\td\te\t>0".toList) false).ret = 0 ∧
    (tbx_parse1 tbx_conf_gaf ("A\tb\tc\td\te\t>0".toList) false).en = 0 := by
  decide

/-- Claim C6: the GAF begin column is parsed with `strtoll(s, &t, 0)`, so a
node id written `0x10` is read as hex 16: the path `>0x10<2` yields
`[beg, end] = [2, 16]`, where the claimed base-10 reading would parse ids
0, 10, 2 and yield `[0, 10]`. -/
theorem gaf_base0_hex_behavior :
    (tbx_parse1 tbx_conf_gaf ("A\tx\tx\tx\tx\t>0x10<2".toList) false).ret = 0 ∧
    (tbx_parse1 tbx_conf_gaf ("A\tx\tx\tx\tx\t>0x10<2".toList) false).beg = 2 ∧
    (tbx_parse1 tbx_conf_gaf ("A\tx\tx\tx\tx\t>0x10<2".toList) false).en = 16 := by
  decide

/-- Counterexample to claim C7 as stated: the negative-begin warning has no
per-process latch, so two lines with POS 0 warn twice. -/
theorem negbeg_warning_twice_counterexample :
    (tbx_parse_calls
      [(tbx_conf_vcf, "c\t0\t.\tA\tT".toList),
       (tbx_conf_vcf, "c\t0\t.\tA\tT".toList)] false).count .negCoord = 2 := by
  decide

/-! ## The ALT-allele cap (claim C8) -/

theorem altStep_alcnt (al : List Char) (a : AltAcc) :
    (altStep al a).alcnt = a.alcnt + 1 := by
  unfold altStep
  split_ifs <;> rfl

theorem altScanGo_take :
    ∀ (l : List (List Char)) (a : AltAcc), a.alcnt < 65536 →
      altScanGo l a = altScanGo (l.take (65536 - a.alcnt)) a := by
  intro l
  induction l with
  | nil => intro a _; rw [List.take_nil]
  | cons al rest ih =>
    intro a ha
    have hk : 65536 - a.alcnt = (65535 - a.alcnt) + 1 := by omega
    rw [hk, List.take_succ_cons]
    simp only [altScanGo]
    by_cases hr : rest = []
    · subst hr
      simp
    · have ha1 := altStep_alcnt al a
      by_cases hc : (altStep al a).alcnt < 65536
      · have htk : rest.take (65535 - a.alcnt) ≠ [] := by
          rw [Ne, List.take_eq_nil_iff]
          push_neg
          constructor
          · omega
          · exact hr
        rw [if_pos ⟨hr, hc⟩, if_pos ⟨htk, hc⟩]
        rw [ih (altStep al a) hc]
        have h2 : 65536 - (altStep al a).alcnt = 65535 - a.alcnt := by omega
        rw [h2]
      · rw [if_neg (by tauto), if_neg (by tauto)]

theorem altScanGo_alcnt_le :
    ∀ (l : List (List Char)) (a : AltAcc), a.alcnt < 65536 →
      (altScanGo l a).alcnt ≤ 65536 := by
  intro l
  induction l with
  | nil =>
    intro a ha
    simpa only [altScanGo] using Nat.le_of_lt ha
  | cons al rest ih =>
    intro a ha
    simp only [altScanGo]
    split
    · next h => exact ih _ h.2
    · rw [altStep_alcnt]
      omega

/-- Claim C8: the ALT scan of a VCF line (allele counter starting at 1
after REF) examines at most the first 65,535 comma-separated alleles —
its result only depends on them — and the excess is dropped with no error,
the final counter staying within the 65,536 cap. -/
theorem alt_scan_truncation (f : List Char) :
    altScanGo (splitOnCh ',' f) ⟨1, [], false, false⟩ =
      altScanGo ((splitOnCh ',' f).take 65535) ⟨1, [], false, false⟩ ∧
    (altScanGo (splitOnCh ',' f) ⟨1, [], false, false⟩).alcnt ≤ 65536 := by
  refine ⟨?_, altScanGo_alcnt_le _ _ (by decide)⟩
  have h := altScanGo_take (splitOnCh ',' f) ⟨1, [], false, false⟩ (by decide)
  simpa using h

/-! ## `adjust_n_lvls` (claim C4) -/

theorem hts_bin_maxpos_pos (m n : Nat) : 0 < hts_bin_maxpos m n := by
  unfold hts_bin_maxpos
  exact_mod_cast pow_pos (by norm_num : (0 : ℕ) < 2) _

theorem hts_bin_maxpos_succ (m n : Nat) :
    hts_bin_maxpos m n * 8 = hts_bin_maxpos m (n + 1) := by
  unfold hts_bin_maxpos
  have hn : (2 : Nat) ^ (m + 3 * (n + 1)) = 2 ^ (m + 3 * n) * 8 := by
    rw [show m + 3 * (n + 1) = (m + 3 * n) + 3 by ring, pow_add]
    norm_num
  rw [hn]
  push_cast
  ring

theorem adjustGo_maxpos (m : Nat) (L : Int) :
    ∀ (M : Nat) (n : Nat), (L - hts_bin_maxpos m n).toNat ≤ M →
      n ≤ adjustGo L n (hts_bin_maxpos m n) ∧
      L ≤ hts_bin_maxpos m (adjustGo L n (hts_bin_maxpos m n)) ∧
      ∀ k, n ≤ k → L ≤ hts_bin_maxpos m k →
        adjustGo L n (hts_bin_maxpos m n) ≤ k := by
  intro M
  induction M with
  | zero =>
    intro n h0
    have hle : L ≤ hts_bin_maxpos m n := by omega
    rw [adjustGo, if_neg (by omega)]
    exact ⟨Nat.le_refl n, hle, fun k hk _ => hk⟩
  | succ M ih =>
    intro n h
    by_cases hlt : hts_bin_maxpos m n < L
    · have hpos := hts_bin_maxpos_pos m n
      rw [adjustGo, if_pos ⟨hlt, hpos⟩, hts_bin_maxpos_succ]
      have hM : (L - hts_bin_maxpos m (n + 1)).toNat ≤ M := by
        rw [← hts_bin_maxpos_succ]
        omega
      obtain ⟨ih1, ih2, ih3⟩ := ih (n + 1) hM
      refine ⟨by omega, ih2, ?_⟩
      intro k hk hLk
      have hkn : k ≠ n := by
        intro he
        rw [he] at hLk
        omega
      exact ih3 k (by omega) hLk
    · rw [adjustGo, if_neg (by omega)]
      exact ⟨Nat.le_refl n, by omega, fun k hk _ => hk⟩

/-- Claim C4: `adjust_n_lvls(min_shift, n_lvls, max_len)` returns the
smallest `n ≥ n_lvls` with `max_pos(min_shift, n) ≥ max_len + 256`. -/
theorem adjust_n_lvls_least (m n : Nat) (max_len : Int) :
    n ≤ adjust_n_lvls m n max_len ∧
    max_len + 256 ≤ hts_bin_maxpos m (adjust_n_lvls m n max_len) ∧
    ∀ k, n ≤ k → max_len + 256 ≤ hts_bin_maxpos m k →
      adjust_n_lvls m n max_len ≤ k := by
  unfold adjust_n_lvls
  exact adjustGo_maxpos m (max_len + 256) _ n (Nat.le_refl _)

/-! ## The dictionary (claim C5) -/

theorem dictFind_of_not_mem (d : List (List Char)) (nm : List Char)
    (h : nm ∉ d) : dictFind d nm = none := by
  induction d with
  | nil => rfl
  | cons x xs ih =>
    simp only [List.mem_cons, not_or] at h
    have hx : x ≠ nm := fun he => h.1 he.symm
    simp only [dictFind, if_neg hx]
    rw [ih h.2]
    rfl

theorem dictFind_get (d : List (List Char)) (hd : d.Nodup) :
    ∀ (k : Nat) (hk : k < d.length), dictFind d (d.get ⟨k, hk⟩) = some k := by
  induction d with
  | nil => intro k hk; simp at hk
  | cons x xs ih =>
    intro k hk
    rw [List.nodup_cons] at hd
    cases k with
    | zero => simp [dictFind]
    | succ k' =>
      have hmem : xs.get ⟨k', by simpa using hk⟩ ∈ xs :=
        List.get_mem xs k' (by simpa using hk)
      have hne : x ≠ xs.get ⟨k', by simpa using hk⟩ := by
        intro he
        exact hd.1 (he ▸ hmem)
      simp only [List.get_cons_succ, dictFind, if_neg hne]
      rw [ih hd.2 k' (by simpa using hk)]
      rfl

theorem runAdds_fresh (preset : Nat) (hp : preset &&& 0xffff ≠ TBX_GAF) :
    ∀ (names d0 : List (List Char)), (∀ nm ∈ names, nm ∉ d0) → names.Nodup →
      (runAdds preset d0 names).1 = d0 ++ names ∧
      (runAdds preset d0 names).2 =
        (List.range names.length).map (fun i => ((d0.length + i : Nat) : Int)) := by
  intro names
  induction names with
  | nil => intro d0 _ _; simp [runAdds]
  | cons nm rest ih =>
    intro d0 hfresh hnd
    rw [List.nodup_cons] at hnd
    have hnm : nm ∉ d0 := hfresh nm (List.mem_cons_self nm rest)
    have hstep : get_tid preset d0 nm true = (d0 ++ [nm], (d0.length : Int)) := by
      unfold get_tid
      rw [if_neg hp, if_pos rfl, dictFind_of_not_mem d0 nm hnm]
    have hfresh2 : ∀ x ∈ rest, x ∉ d0 ++ [nm] := by
      intro x hx
      simp only [List.mem_append, List.mem_singleton, not_or]
      exact ⟨hfresh x (List.mem_cons_of_mem nm hx),
        fun he => hnd.1 (he ▸ hx)⟩
    obtain ⟨ihd, iht⟩ := ih (d0 ++ [nm]) hfresh2 hnd.2
    constructor
    · simp only [runAdds, hstep, ihd]
      simp
    · simp only [runAdds, hstep, iht]
      rw [List.length_cons, List.range_succ_eq_map, List.map_cons, List.map_map]
      simp only [List.cons.injEq]
      refine ⟨by norm_num, ?_⟩
      apply List.map_congr_left
      intro i _
      simp only [Function.comp_apply, List.length_append, List.length_cons,
        List.length_nil]
      exact congrArg _ (by omega)

/-- Claim C5: interning a duplicate-free list of names assigns ids by
insertion order (the k-th name added receives id k), the final dictionary
lists the names in that order, and `tbx_name2id` looks each back up to the
same id; loading an index interns the names-block in order the same way. -/
theorem dict_tid_insertion_order (preset : Nat) (names : List (List Char))
    (hp : preset &&& 0xffff ≠ TBX_GAF) (hnd : names.Nodup) :
    (runAdds preset [] names).1 = names ∧
    (runAdds preset [] names).2 = (List.range names.length).map (Nat.cast : Nat → Int) ∧
    ∀ (k : Nat) (hk : k < names.length),
      tbx_name2id preset (runAdds preset [] names).1 (names.get ⟨k, hk⟩) = (k : Int) := by
  obtain ⟨h1, h2⟩ := runAdds_fresh preset hp names [] (by simp) hnd
  rw [List.nil_append] at h1
  refine ⟨h1, ?_, ?_⟩
  · rw [h2]
    apply List.map_congr_left
    intro i _
    simp
  intro k hk
  rw [h1]
  unfold tbx_name2id get_tid
  rw [if_neg hp]
  simp only [Bool.false_eq_true, if_false]
  rw [dictFind_get names hnd k hk]

/-- Witness for `dict_tid_insertion_order` on two concrete names. -/
theorem dict_tid_insertion_order_witness :
    (runAdds TBX_VCF [] ["chr1".toList, "chr2".toList]).1 =
      ["chr1".toList, "chr2".toList] ∧
    (runAdds TBX_VCF [] ["chr1".toList, "chr2".toList]).2 =
      (List.range 2).map (Nat.cast : Nat → Int) ∧
    ∀ (k : Nat) (hk : k < (["chr1".toList, "chr2".toList] : List (List Char)).length),
      tbx_name2id TBX_VCF (runAdds TBX_VCF [] ["chr1".toList, "chr2".toList]).1
        ((["chr1".toList, "chr2".toList] : List (List Char)).get ⟨k, hk⟩) = (k : Int) :=
  dict_tid_insertion_order TBX_VCF ["chr1".toList, "chr2".toList]
    (by decide) (by decide)

/-! ## Region-string ambiguity (claim C2) -/

/-- Claim C2: on an unbraced region string whose rightmost colon is at
index `j` (no list parsing), if the whole string resolves to a reference
and the pre-colon prefix also resolves, `hts_parse_region` fails with the
ambiguity error (NULL return, `*tid = -1`); if only the whole string
resolves, it is taken as the name with `beg = 0`, `end = HTS_POS_MAX` and
the whole string consumed. -/
theorem parse_region_ambiguity (s : List Char) (getid : List Char → Int)
    (flags : Nat) (j : Nat)
    (hbrace : s.headD '\x00' ≠ '{')
    (hlist : flags &&& HTS_PARSE_LIST = 0)
    (hcolon : lastIdxOfCh ':' s = some j)
    (hwhole : 0 ≤ getid s) :
    (0 ≤ getid (s.take j) →
      hts_parse_region s getid flags = .fail (-1) .ambiguous) ∧
    (getid (s.take j) < 0 →
      hts_parse_region s getid flags = .ok (getid s) 0 HTS_POS_MAX s.length) := by
  have hfl : (flags ||| HTS_PARSE_THOUSANDS_SEP) &&& HTS_PARSE_LIST = 0 := by
    unfold HTS_PARSE_THOUSANDS_SEP HTS_PARSE_LIST at *
    rw [Nat.and_distrib_right]
    simp [hlist]
  have hm : hts_memrchr s ':' s.length = some j := by
    unfold hts_memrchr
    rw [List.take_length]
    exact hcolon
  have hc1 : (flags &&& HTS_PARSE_LIST ≠ 0) = False := by simp [hlist]
  have hc2 : ((flags ||| HTS_PARSE_THOUSANDS_SEP) &&& HTS_PARSE_LIST ≠ 0) = False := by
    simp [hfl]
  have hb : (s.head?.getD '\x00' = '{') = False := by
    rw [← List.headD_eq_head?_getD]
    exact eq_false hbrace
  simp only [hts_parse_region, hc1, hc2, hb, if_false]
  rw [hm]
  simp only [List.take_length]
  rw [if_pos hwhole]
  rw [if_neg hbrace]
  constructor
  · intro h
    rw [if_pos h]
  · intro h
    rw [if_neg (by omega)]

/-- Witness for `parse_region_ambiguity`: `chr1` and `chr1:100-200` both
being reference names makes `chr1:100-200` ambiguous. -/
theorem parse_region_ambiguity_witness :
    hts_parse_region ("chr1:100-200".toList)
      (fun x => if x = "chr1:100-200".toList then 0
                else if x = "chr1".toList then 1 else -1) 0 =
      .fail (-1) .ambiguous :=
  (parse_region_ambiguity ("chr1:100-200".toList)
    (fun x => if x = "chr1:100-200".toList then 0
              else if x = "chr1".toList then 1 else -1) 0 4
    (by decide) (by decide) (by decide) (by decide)).1 (by decide)

theorem infoEndUpd_effects (f : List Char) (st : ParseSt) :
    (infoEndUpd f st).ss = st.ss ∧ (infoEndUpd f st).beg = st.beg ∧
    (((infoEndUpd f st).warns.count .badInfoEnd = st.warns.count .badInfoEnd ∧
      (infoEndUpd f st).reported = st.reported) ∨
     (st.reported = false ∧ (infoEndUpd f st).reported = true ∧
      (infoEndUpd f st).warns.count .badInfoEnd =
        st.warns.count .badInfoEnd + 1)) := by
  unfold infoEndUpd
  cases hend : infoEndPtr f with
  | none => exact ⟨rfl, rfl, Or.inl ⟨rfl, rfl⟩⟩
  | some s =>
    dsimp only
    by_cases hdot : s.headD '\x00' ≠ '.'
    · rw [if_pos hdot]
      by_cases hle : (strtoll s 0).1 ≤ st.beg
      · rw [if_pos hle]
        by_cases hr : st.reported
        · rw [if_pos hr]
          exact ⟨rfl, rfl, Or.inl ⟨rfl, rfl⟩⟩
        · rw [if_neg hr]
          refine ⟨rfl, rfl, Or.inr ⟨by simpa using hr, rfl, ?_⟩⟩
          simp [List.count_append, List.count_cons]
      · rw [if_neg hle]
        exact ⟨rfl, rfl, Or.inl ⟨rfl, rfl⟩⟩
    · rw [if_neg hdot]
      exact ⟨rfl, rfl, Or.inl ⟨rfl, rfl⟩⟩

theorem infoField_effects (f : List Char) (st : ParseSt) :
    (infoField f st).ss = st.ss ∧ (infoField f st).beg = st.beg ∧
    (((infoField f st).warns.count .badInfoEnd = st.warns.count .badInfoEnd ∧
      (infoField f st).reported = st.reported) ∨
     (st.reported = false ∧ (infoField f st).reported = true ∧
      (infoField f st).warns.count .badInfoEnd =
        st.warns.count .badInfoEnd + 1)) := by
  obtain ⟨e1, e2, e3⟩ := infoEndUpd_effects f st
  unfold infoField
  cases hsv : svlenPtr f with
  | none => exact ⟨e1, e2, e3⟩
  | some sv => exact ⟨e1, e2, e3⟩

theorem bcField_effects (conf : TbxConf) (line : List Char) (b : Nat)
    (f : List Char) (st : ParseSt) :
    (bcField conf line b f st).st.ss = st.ss ∧
    (bcField conf line b f st).st.warns.count .badInfoEnd =
      st.warns.count .badInfoEnd ∧
    (bcField conf line b f st).st.reported = st.reported := by
  unfold bcField
  rcases hg : gafScan line (b + 1) (b + f.length) st.beg st.en with ⟨gb, ge⟩
  rcases hs : strtoll (line.drop b) 0 with ⟨v, n⟩
  simp only [hg, hs]
  split_ifs <;>
    simp [FieldOut.st, List.count_append, List.count_cons, List.count_nil]

theorem vcfField_effects (id b : Nat) (f : List Char) (st : ParseSt) :
    (vcfField id b f st).st.ss = st.ss ∧
    (vcfField id b f st).st.beg = st.beg ∧
    (((vcfField id b f st).st.warns.count .badInfoEnd =
        st.warns.count .badInfoEnd ∧
      (vcfField id b f st).st.reported = st.reported) ∨
     (st.reported = false ∧ (vcfField id b f st).st.reported = true ∧
      (vcfField id b f st).st.warns.count .badInfoEnd =
        st.warns.count .badInfoEnd + 1)) := by
  rw [vcfField]
  by_cases h1 : id = 4
  · rw [if_pos h1]
    split_ifs <;> simp [FieldOut.st]
  · rw [if_neg h1]
    by_cases h2 : id = 5
    · rw [if_pos h2]
      simp [FieldOut.st]
    · rw [if_neg h2]
      by_cases h3 : id = 8
      · rw [if_pos h3]
        obtain ⟨e1, e2, e3⟩ := infoField_effects f st
        exact ⟨e1, e2, e3⟩
      · rw [if_neg h3]
        by_cases h4 : st.getlen ∧ id = 9
        · rw [if_pos h4]
          split <;> simp [FieldOut.st]
        · rw [if_neg h4]
          by_cases h5 : 9 < id ∧ st.getlen ∧ st.lenpos ≠ none
          · rw [if_pos h5]
            simp [FieldOut.st]
          · rw [if_neg h5]
            simp [FieldOut.st]

theorem procField_effects (conf : TbxConf) (line : List Char) (id b : Nat)
    (f : List Char) (st : ParseSt) :
    ((procField conf line id b f st).st.ss = st.ss ∨
      (id = conf.sc ∧
        (procField conf line id b f st).st.ss = some (b, b + f.length))) ∧
    ((procField conf line id b f st).st.beg = st.beg ∨ id = conf.bc) ∧
    (((procField conf line id b f st).st.warns.count .badInfoEnd =
        st.warns.count .badInfoEnd ∧
      (procField conf line id b f st).st.reported = st.reported) ∨
     (st.reported = false ∧ (procField conf line id b f st).st.reported = true ∧
      (procField conf line id b f st).st.warns.count .badInfoEnd =
        st.warns.count .badInfoEnd + 1)) := by
  rw [procField]
  by_cases h1 : id = conf.sc
  · rw [if_pos h1]
    exact ⟨Or.inr ⟨h1, rfl⟩, Or.inl rfl, Or.inl ⟨rfl, rfl⟩⟩
  · rw [if_neg h1]
    by_cases h2 : id = conf.bc
    · rw [if_pos h2]
      obtain ⟨e1, e2, e3⟩ := bcField_effects conf line b f st
      exact ⟨Or.inl e1, Or.inr h2, Or.inl ⟨e2, e3⟩⟩
    · rw [if_neg h2]
      by_cases h3 : conf.preset &&& 0xffff = TBX_GENERIC
      · rw [if_pos h3]
        by_cases h4 : id = conf.ec
        · rw [if_pos h4]
          rcases hs : strtoll (line.drop b) 0 with ⟨v, n⟩
          simp only [hs]
          split_ifs <;> exact ⟨Or.inl rfl, Or.inl rfl, Or.inl ⟨rfl, rfl⟩⟩
        · rw [if_neg h4]
          exact ⟨Or.inl rfl, Or.inl rfl, Or.inl ⟨rfl, rfl⟩⟩
      · rw [if_neg h3]
        by_cases h5 : conf.preset &&& 0xffff = TBX_SAM
        · rw [if_pos h5]
          by_cases h6 : id = 6
          · rw [if_pos h6]
            exact ⟨Or.inl rfl, Or.inl rfl, Or.inl ⟨rfl, rfl⟩⟩
          · rw [if_neg h6]
            exact ⟨Or.inl rfl, Or.inl rfl, Or.inl ⟨rfl, rfl⟩⟩
        · rw [if_neg h5]
          by_cases h7 : conf.preset &&& 0xffff = TBX_VCF
          · rw [if_pos h7]
            obtain ⟨e1, e2, e3⟩ := vcfField_effects id b f st
            exact ⟨Or.inl e1, Or.inl e2, e3⟩
          · rw [if_neg h7]
            exact ⟨Or.inl rfl, Or.inl rfl, Or.inl ⟨rfl, rfl⟩⟩

/-! ## The warning latch (claim C7) -/

theorem runFields_warnInv (conf : TbxConf) (line : List Char) (rep0 : Bool) :
    ∀ (fs : List (Nat × List Char)) (id : Nat) (st : ParseSt),
      ((rep0 = true → st.reported = true ∧ st.warns.count .badInfoEnd = 0) ∧
       (st.reported = false → st.warns.count .badInfoEnd = 0) ∧
       st.warns.count .badInfoEnd ≤ 1) →
      ((rep0 = true → (runFields conf line id fs st).1.reported = true ∧
          (runFields conf line id fs st).1.warns.count .badInfoEnd = 0) ∧
       ((runFields conf line id fs st).1.reported = false →
          (runFields conf line id fs st).1.warns.count .badInfoEnd = 0) ∧
       (runFields conf line id fs st).1.warns.count .badInfoEnd ≤ 1) := by
  intro fs
  induction fs with
  | nil =>
    intro id st h
    simpa [runFields] using h
  | cons p rest ih =>
    intro id st h
    obtain ⟨ha, hb, hc⟩ := h
    obtain ⟨b, f⟩ := p
    have he := (procField_effects conf line id b f st).2.2
    have hInv : ∀ st', (procField conf line id b f st).st = st' →
        ((rep0 = true → st'.reported = true ∧ st'.warns.count .badInfoEnd = 0) ∧
         (st'.reported = false → st'.warns.count .badInfoEnd = 0) ∧
         st'.warns.count .badInfoEnd ≤ 1) := by
      intro st' hst'
      rw [hst'] at he
      rcases he with ⟨hcnt, hrep⟩ | ⟨hrf, hrt, hcnt⟩
      · refine ⟨?_, ?_, ?_⟩
        · intro hr
          obtain ⟨x1, x2⟩ := ha hr
          rw [hrep, hcnt]
          exact ⟨x1, x2⟩
        · intro hr
          rw [hrep] at hr
          rw [hcnt]
          exact hb hr
        · rw [hcnt]
          exact hc
      · refine ⟨?_, ?_, ?_⟩
        · intro hr
          exact absurd (ha hr).1 (by simp [hrf])
        · intro hr
          rw [hrt] at hr
          exact absurd hr (by simp)
        · rw [hcnt, hb hrf]
    rcases hp : procField conf line id b f st with st' | st' | st'
    · simp only [runFields, hp]
      exact ih (id + 1) st' (hInv st' (by rw [hp]; rfl))
    · simp only [runFields, hp]
      exact hInv st' (by rw [hp]; rfl)
    · simp only [runFields, hp]
      exact hInv st' (by rw [hp]; rfl)

theorem parseFinish_warns (conf : TbxConf) (r : ParseSt × Bool) :
    (parseFinish conf r).warns = r.1.warns ∧
    (parseFinish conf r).reported = r.1.reported := by
  unfold parseFinish parseCheck
  repeat' split
  all_goals exact ⟨rfl, rfl⟩

theorem tbx_parse1_warns_latch (conf : TbxConf) (line : List Char) (rep0 : Bool) :
    ((tbx_parse1 conf line rep0).warns.count .badInfoEnd ≤
      if rep0 then 0 else 1) ∧
    (rep0 = true → (tbx_parse1 conf line rep0).reported = true) ∧
    ((tbx_parse1 conf line rep0).reported = false →
      (tbx_parse1 conf line rep0).warns.count .badInfoEnd = 0) := by
  have hI := runFields_warnInv conf line rep0 (splitFieldsPos line 0) 1
    (parseInit rep0)
    ⟨fun hr => ⟨hr, rfl⟩, fun _ => rfl, by simp [parseInit]⟩
  obtain ⟨w1, w2⟩ :=
    parseFinish_warns conf (runFields conf line 1 (splitFieldsPos line 0) (parseInit rep0))
  unfold tbx_parse1
  rw [w1, w2]
  obtain ⟨i1, i2, i3⟩ := hI
  refine ⟨?_, fun hr => (i1 hr).1, i2⟩
  cases hr : rep0
  · rw [hr] at i3
    simpa using i3
  · rw [hr] at i1
    simpa using (i1 rfl).2

theorem tbx_parse_calls_badend (calls : List (TbxConf × List Char)) :
    ∀ rep0, (tbx_parse_calls calls rep0).count .badInfoEnd ≤
      if rep0 then 0 else 1 := by
  induction calls with
  | nil =>
    intro rep0
    cases rep0 <;> simp [tbx_parse_calls]
  | cons p rest ih =>
    intro rep0
    simp only [tbx_parse_calls, List.count_append]
    obtain ⟨c1, c2, c3⟩ := tbx_parse1_warns_latch p.1 p.2 rep0
    cases hrep0 : rep0
    · rw [hrep0] at c1 c3
      cases hr : (tbx_parse1 p.1 p.2 false).reported
      · have h1 := c3 hr
        have h2 := ih (tbx_parse1 p.1 p.2 false).reported
        rw [hr] at h2
        rw [if_neg (by simp : ¬ (false = true))] at h2 ⊢
        omega
      · have h2 := ih (tbx_parse1 p.1 p.2 false).reported
        rw [hr] at h2
        rw [if_pos rfl] at h2
        rw [if_neg (by simp : ¬ (false = true))] at c1 ⊢
        omega
    · rw [hrep0] at c1 c2
      have h2 := ih (tbx_parse1 p.1 p.2 true).reported
      rw [c2 rfl, if_pos rfl] at h2
      rw [c2 rfl]
      rw [if_pos rfl] at c1 ⊢
      omega

/-- Claim C7 (amended): across any sequence of `tbx_parse1` calls in one
process, the invalid-INFO/END warning is emitted at most once (its
per-process `static` latch suppresses repeats); the negative-begin warning
has no latch and may repeat (`negbeg_warning_twice_counterexample`). -/
theorem info_end_warning_once (calls : List (TbxConf × List Char)) :
    (tbx_parse_calls calls false).count .badInfoEnd ≤ 1 := by
  simpa using tbx_parse_calls_badend calls false

/-! ## Field bounds and the success slice (claim C10) -/

theorem splitFieldsPos_bounds :
    ∀ (cs : List Char) (off : Nat) (p : Nat × List Char),
      p ∈ splitFieldsPos cs off →
      off ≤ p.1 ∧ p.1 + p.2.length ≤ off + cs.length := by
  intro cs
  induction cs with
  | nil =>
    intro off p hp
    simp [splitFieldsPos] at hp
    subst hp
    simp
  | cons c cs ih =>
    intro off p hp
    simp only [splitFieldsPos] at hp
    split at hp
    · rcases List.mem_cons.1 hp with h | h
      · subst h
        simp
      · have h0 := ih (off + 1) p h
        simp only [List.length_cons]
        exact ⟨by omega, by omega⟩
    · rcases hsp : splitFieldsPos cs (off + 1) with _ | ⟨⟨b0, f0⟩, rest⟩
      · rw [hsp] at hp
        simp at hp
        subst hp
        simp
      · rw [hsp] at hp
        dsimp only at hp
        rcases List.mem_cons.1 hp with h | h
        · subst h
          have h0 := ih (off + 1) (b0, f0) (by rw [hsp]; exact List.mem_cons_self _ _)
          dsimp only at h0 ⊢
          simp only [List.length_cons]
          exact ⟨le_rfl, by omega⟩
        · have h0 := ih (off + 1) p (by rw [hsp]; exact List.mem_cons_of_mem _ h)
          simp only [List.length_cons]
          exact ⟨by omega, by omega⟩

theorem runFields_ss_frame (conf : TbxConf) (line : List Char) :
    ∀ (fs : List (Nat × List Char)) (id : Nat) (st : ParseSt),
      (∀ k, k < fs.length → id + k ≠ conf.sc) →
      (runFields conf line id fs st).1.ss = st.ss := by
  intro fs
  induction fs with
  | nil =>
    intro id st _
    rfl
  | cons p rest ih =>
    intro id st h
    obtain ⟨b, f⟩ := p
    have hss : ∀ st', (procField conf line id b f st).st = st' → st'.ss = st.ss := by
      intro st' hst'
      rcases (procField_effects conf line id b f st).1 with h1 | ⟨h1, _⟩
      · rw [hst'] at h1
        exact h1
      · exact absurd h1 (by have := h 0 (by simp); omega)
    have hsh : ∀ k, k < rest.length → (id + 1) + k ≠ conf.sc := by
      intro k hk
      have := h (k + 1) (by simpa using Nat.succ_lt_succ hk)
      omega
    rcases hp : procField conf line id b f st with st' | st' | st'
    · simp only [runFields, hp]
      rw [ih (id + 1) st' hsh]
      exact hss st' (by rw [hp]; rfl)
    · simp only [runFields, hp]
      exact hss st' (by rw [hp]; rfl)
    · simp only [runFields, hp]
      exact hss st' (by rw [hp]; rfl)

theorem runFields_ss_bound (conf : TbxConf) (line : List Char) :
    ∀ (fs : List (Nat × List Char)) (id : Nat) (st : ParseSt),
      (∀ p ∈ fs, p.1 + p.2.length ≤ line.length) →
      (st.ss = none ∨ ∃ q, st.ss = some q ∧ q.1 ≤ q.2 ∧ q.2 ≤ line.length) →
      ((runFields conf line id fs st).1.ss = none ∨
       ∃ q, (runFields conf line id fs st).1.ss = some q ∧
         q.1 ≤ q.2 ∧ q.2 ≤ line.length) := by
  intro fs
  induction fs with
  | nil =>
    intro id st _ h
    exact h
  | cons p rest ih =>
    intro id st hb h
    obtain ⟨b, f⟩ := p
    have hss : ∀ st', (procField conf line id b f st).st = st' →
        (st'.ss = none ∨ ∃ q, st'.ss = some q ∧ q.1 ≤ q.2 ∧ q.2 ≤ line.length) := by
      intro st' hst'
      rcases (procField_effects conf line id b f st).1 with h1 | ⟨_, h1⟩
      · rw [hst'] at h1
        rw [h1]
        exact h
      · rw [hst'] at h1
        refine Or.inr ⟨(b, b + f.length), h1, by simp, ?_⟩
        have := hb (b, f) (List.mem_cons_self _ _)
        simpa using this
    rcases hp : procField conf line id b f st with st' | st' | st'
    · simp only [runFields, hp]
      exact ih (id + 1) st' (fun q hq => hb q (List.mem_cons_of_mem _ hq))
        (hss st' (by rw [hp]; rfl))
    · simp only [runFields, hp]
      exact hss st' (by rw [hp]; rfl)
    · simp only [runFields, hp]
      exact hss st' (by rw [hp]; rfl)

theorem runFields_bc_fail (conf : TbxConf) (line : List Char)
    (hng : conf.preset &&& 0xffff ≠ TBX_GAF) :
    ∀ (fs : List (Nat × List Char)) (id : Nat) (st : ParseSt),
      st.beg < 0 →
      (∀ k, k < fs.length → id + k = conf.bc →
        (strtoll (line.drop (fs.getD k (0, [])).1) 0).2 = 0) →
      ((runFields conf line id fs st).2 = true ∨
       (runFields conf line id fs st).1.beg < 0) := by
  intro fs
  induction fs with
  | nil =>
    intro id st hb _
    exact Or.inr hb
  | cons p rest ih =>
    intro id st hbeg h
    obtain ⟨b, f⟩ := p
    have hsh : ∀ k, k < rest.length → (id + 1) + k = conf.bc →
        (strtoll (line.drop (rest.getD k (0, [])).1) 0).2 = 0 := by
      intro k hk he
      have := h (k + 1) (by simpa using Nat.succ_lt_succ hk) (by omega)
      simpa [List.getD_cons_succ] using this
    by_cases hsc : id = conf.sc
    · have hp : procField conf line id b f st =
          .cont { st with ss := some (b, b + f.length) } := by
        rw [procField, if_pos hsc]
      simp only [runFields, hp]
      exact ih (id + 1) _ hbeg hsh
    · by_cases hbc : id = conf.bc
      · have hk := h 0 (by simp) (by omega)
        simp only [List.getD_cons_zero] at hk
        rcases hs : strtoll (line.drop b) 0 with ⟨v, n⟩
        have hn : n = 0 := by
          rw [hs] at hk
          exact hk
        obtain ⟨st', hp⟩ : ∃ st', procField conf line id b f st = .fail st' := by
          rw [procField, if_neg hsc, if_pos hbc]
          unfold bcField
          rw [if_neg hng]
          simp only [hs, hn, if_pos]
          exact ⟨_, rfl⟩
        simp only [runFields, hp]
        exact Or.inl trivial
      · have hbg : ∀ st', (procField conf line id b f st).st = st' → st'.beg < 0 := by
          intro st' hst'
          rcases (procField_effects conf line id b f st).2.1 with h1 | h1
          · rw [hst'] at h1
            omega
          · exact absurd h1 hbc
        rcases hp : procField conf line id b f st with st' | st' | st'
        · simp only [runFields, hp]
          exact ih (id + 1) st' (hbg st' (by rw [hp]; rfl)) hsh
        · simp only [runFields, hp]
          exact Or.inr (hbg st' (by rw [hp]; rfl))
        · simp only [runFields, hp]
          exact Or.inl trivial

theorem parseFinish_ss (conf : TbxConf) (r : ParseSt × Bool) :
    (parseFinish conf r).ss = r.1.ss := by
  unfold parseFinish parseCheck
  repeat' split
  all_goals rfl

theorem parseFinish_fail_of (conf : TbxConf) (r : ParseSt × Bool)
    (h : r.2 = true ∨ r.1.ss = none ∨ r.1.beg < 0) :
    (parseFinish conf r).ret = -1 := by
  unfold parseFinish
  by_cases h2 : r.2 = true
  · rw [if_pos h2]
  · rw [if_neg h2]
    unfold parseCheck
    rcases h with h | h | h
    · exact absurd h h2
    · rw [if_pos (Or.inl h)]
    · rw [if_pos (Or.inr (Or.inl h))]

/-- Claim C10 (amended): on success the name slice lies inside the line and
the coordinates are non-negative; a line with fewer fields than the
sequence column returns -1; for non-GAF presets a begin column at which
`strtoll` consumes no characters returns -1.  Under the GAF preset the
begin column is scanned by the node-id loop, which cannot fail
(`gaf_nonint_begin_counterexample`). -/
theorem parse_success_name_slice (conf : TbxConf) (line : List Char) (rep : Bool) :
    ((tbx_parse1 conf line rep).ret = 0 →
      (∃ q, (tbx_parse1 conf line rep).ss = some q ∧
        q.1 ≤ q.2 ∧ q.2 ≤ line.length) ∧
      0 ≤ (tbx_parse1 conf line rep).beg ∧ 0 ≤ (tbx_parse1 conf line rep).en) ∧
    ((splitFieldsPos line 0).length < conf.sc →
      (tbx_parse1 conf line rep).ret = -1) ∧
    (conf.preset &&& 0xffff ≠ TBX_GAF →
      (strtoll (line.drop (((splitFieldsPos line 0).getD
        (conf.bc - 1) (0, [])).1)) 0).2 = 0 →
      (tbx_parse1 conf line rep).ret = -1) := by
  refine ⟨?_, ?_, ?_⟩
  · intro hr
    rcases tbx_parse1_ret_cases conf line rep with hc | hc
    · rw [hc] at hr
      exact absurd hr (by decide)
    · obtain ⟨_, hss, hbeg, hen⟩ := hc
      refine ⟨?_, hbeg, hen⟩
      have hfin : (tbx_parse1 conf line rep).ss =
          (runFields conf line 1 (splitFieldsPos line 0) (parseInit rep)).1.ss :=
        parseFinish_ss conf _
      have hbound := runFields_ss_bound conf line (splitFieldsPos line 0) 1
        (parseInit rep)
        (fun p hp => by simpa using (splitFieldsPos_bounds line 0 p hp).2)
        (Or.inl rfl)
      rcases hbound with h0 | ⟨q, hq, h1, h2⟩
      · exact absurd (hfin.trans h0) hss
      · exact ⟨q, hfin.trans hq, h1, h2⟩
  · intro hlt
    have hfr := runFields_ss_frame conf line (splitFieldsPos line 0) 1
      (parseInit rep) (fun k hk => by omega)
    exact parseFinish_fail_of conf _ (Or.inr (Or.inl hfr))
  · intro hng hsn
    have hbf := runFields_bc_fail conf line hng (splitFieldsPos line 0) 1
      (parseInit rep) (by norm_num [parseInit])
      (fun k hk he => by
        have hkb : k = conf.bc - 1 := by omega
        rw [hkb]
        exact hsn)
    rcases hbf with h0 | h0
    · exact parseFinish_fail_of conf _ (Or.inl h0)
    · exact parseFinish_fail_of conf _ (Or.inr (Or.inr h0))

/-- Counterexample to claim C10 as stated: under the GAF preset a begin
column with no digits at all still parses (the node-id loop cannot fail),
and for BED an empty begin column succeeds because `strtoll` skips the
separator tab and reads the next field. -/
theorem gaf_nonint_begin_counterexample :
    ((∀ c ∈ fieldN ("A\tb\tc\td\te\t>x".toList) 6, ¬ c.isDigit) ∧
     (tbx_parse1 tbx_conf_gaf ("A\tb\tc\td\te\t>x".toList) false).ret = 0) ∧
    ((fieldN ("chr1\t\t20".toList) 2 = []) ∧
     (tbx_parse1 tbx_conf_bed ("chr1\t\t20".toList) false).ret = 0) := by
  decide

/-! ## Buffer preservation (claim C9) -/

theorem set_getD_self : ∀ (l : List Char) (i : Nat) (d : Char),
    l.set i (l.getD i d) = l := by
  intro l
  induction l with
  | nil => intro i d; rfl
  | cons a l ih =>
    intro i d
    cases i with
    | zero => rfl
    | succ i => exact congrArg (List.cons a) (ih i d)

theorem altLoopBuf_buf : ∀ (n : Nat) (buf : List Char) (s : Nat) (a : AltAcc),
    buf.length - s ≤ n → (altLoopBuf buf s a).1 = buf := by
  intro n
  induction n with
  | zero =>
    intro buf s a h
    rw [altLoopBuf]
    have hnone : strchrNul buf ',' s = none := by
      rw [strchrNul]
      rw [dif_neg (by omega)]
    rw [hnone]
  | succ n ih =>
    intro buf s a h
    rw [altLoopBuf]
    cases hc : strchrNul buf ',' s with
    | none => rfl
    | some tp =>
      obtain ⟨hts, htl, htc⟩ := tp.2
      have hbuf3 : (buf.set tp.1 '\x00').set tp.1 ',' = buf := by
        rw [List.set_set]
        calc buf.set tp.1 ','
            = buf.set tp.1 (buf.getD tp.1 '\x00') := by rw [htc]
          _ = buf := set_getD_self buf tp.1 '\x00'
      dsimp only
      rw [hbuf3]
      split
      · exact ih buf (tp.1 + 1) _ (by omega)
      · rfl

theorem fmtLoopBuf_buf : ∀ (n : Nat) (buf : List Char) (s pos : Nat),
    buf.length - s ≤ n → (fmtLoopBuf buf s pos).1 = buf := by
  intro n
  induction n with
  | zero =>
    intro buf s pos h
    rw [fmtLoopBuf]
    have hnone : strchrNul buf ':' s = none := by
      rw [strchrNul]
      rw [dif_neg (by omega)]
    rw [hnone]
  | succ n ih =>
    intro buf s pos h
    rw [fmtLoopBuf]
    cases hc : strchrNul buf ':' s with
    | none => rfl
    | some tp =>
      obtain ⟨hts, htl, htc⟩ := tp.2
      have hbuf3 : (buf.set tp.1 '\x00').set tp.1 ':' = buf := by
        rw [List.set_set]
        calc buf.set tp.1 ':'
            = buf.set tp.1 (buf.getD tp.1 '\x00') := by rw [htc]
          _ = buf := set_getD_self buf tp.1 '\x00'
      dsimp only
      rw [hbuf3]
      split
      · rfl
      · exact ih buf (tp.1 + 1) _ (by omega)

theorem altFieldBuf_buf (buf : List Char) (b i : Nat) (st : ParseSt) :
    (altFieldBuf buf b i st).1 = buf := by
  unfold altFieldBuf
  dsimp only
  rw [altLoopBuf_buf (buf.set i '\x00').length _ _ _ (by omega)]
  rw [List.set_set]
  exact set_getD_self buf i '\x00'

theorem infoFieldBuf_buf (buf : List Char) (b i : Nat) (st : ParseSt) :
    (infoFieldBuf buf b i st).1 = buf := by
  unfold infoFieldBuf
  dsimp only
  rw [List.set_set]
  exact set_getD_self buf i '\x00'

theorem fmtFieldBuf_buf (buf : List Char) (b i : Nat) (st : ParseSt) :
    (fmtFieldBuf buf b i st).1 = buf := by
  have hsh : (fmtFieldBuf buf b i st).1 =
      ((fmtLoopBuf (buf.set i '\x00') b 0).1).set i (buf.getD i '\x00') := by
    unfold fmtFieldBuf
    dsimp only
    split <;> rfl
  rw [hsh]
  rw [fmtLoopBuf_buf (buf.set i '\x00').length _ _ _ (by omega)]
  rw [List.set_set]
  exact set_getD_self buf i '\x00'

theorem sampleFieldBuf_buf (buf : List Char) (b i : Nat) (st : ParseSt) :
    (sampleFieldBuf buf b i st).1 = buf := by
  unfold sampleFieldBuf
  dsimp only
  rw [List.set_set]
  exact set_getD_self buf i '\x00'

theorem vcfFieldBuf_buf (buf : List Char) (id b : Nat) (f : List Char)
    (st : ParseSt) : (vcfFieldBuf buf id b f st).1 = buf := by
  rw [vcfFieldBuf]
  by_cases h1 : id = 4
  · rw [if_pos h1]
  · rw [if_neg h1]
    by_cases h2 : id = 5
    · rw [if_pos h2]
      exact altFieldBuf_buf buf b (b + f.length) st
    · rw [if_neg h2]
      by_cases h3 : id = 8
      · rw [if_pos h3]
        exact infoFieldBuf_buf buf b (b + f.length) st
      · rw [if_neg h3]
        by_cases h4 : st.getlen ∧ id = 9
        · rw [if_pos h4]
          exact fmtFieldBuf_buf buf b (b + f.length) st
        · rw [if_neg h4]
          by_cases h5 : 9 < id ∧ st.getlen ∧ st.lenpos ≠ none
          · rw [if_pos h5]
            exact sampleFieldBuf_buf buf b (b + f.length) st
          · rw [if_neg h5]

theorem procFieldBuf_buf (conf : TbxConf) (buf : List Char) (id b : Nat)
    (f : List Char) (st : ParseSt) : (procFieldBuf conf buf id b f st).1 = buf := by
  rw [procFieldBuf]
  by_cases h1 : id = conf.sc
  · rw [if_pos h1]
  · rw [if_neg h1]
    by_cases h2 : id = conf.bc
    · rw [if_pos h2]
    · rw [if_neg h2]
      by_cases h3 : conf.preset &&& 0xffff = TBX_GENERIC
      · rw [if_pos h3]
        by_cases h4 : id = conf.ec
        · rw [if_pos h4]
        · rw [if_neg h4]
      · rw [if_neg h3]
        by_cases h5 : conf.preset &&& 0xffff = TBX_SAM
        · rw [if_pos h5]
          by_cases h6 : id = 6
          · rw [if_pos h6]
          · rw [if_neg h6]
        · rw [if_neg h5]
          by_cases h7 : conf.preset &&& 0xffff = TBX_VCF
          · rw [if_pos h7]
            exact vcfFieldBuf_buf buf id b f st
          · rw [if_neg h7]

theorem runFieldsBuf_buf (conf : TbxConf) :
    ∀ (fs : List (Nat × List Char)) (buf : List Char) (id : Nat) (st : ParseSt),
      (runFieldsBuf conf buf id fs st).1 = buf := by
  intro fs
  induction fs with
  | nil => intro buf id st; rfl
  | cons p rest ih =>
    intro buf id st
    obtain ⟨b, f⟩ := p
    rcases hp : procFieldBuf conf buf id b f st with ⟨buf', o⟩
    have hb : buf' = buf := by
      have h0 := procFieldBuf_buf conf buf id b f st
      rw [hp] at h0
      exact h0
    cases o with
    | cont st' =>
      simp only [runFieldsBuf, hp]
      rw [ih buf' (id + 1) st']
      exact hb
    | brk st' =>
      simp only [runFieldsBuf, hp]
      exact hb
    | fail st' =>
      simp only [runFieldsBuf, hp]
      exact hb

/-- Claim C9: whatever the configuration, the line and the outcome, the
buffer `tbx_parse1` hands back is byte-for-byte its contents on entry:
every temporary NUL planted for the ALT, INFO, FORMAT and sample scans is
restored before return. -/
theorem parse_buffer_preserved (conf : TbxConf) (line : List Char) (rep : Bool) :
    (tbx_parse1_buf conf line rep).1 = line := by
  unfold tbx_parse1_buf
  dsimp only
  exact runFieldsBuf_buf conf (splitFieldsPos line 0) line 1 (parseInit rep)


theorem maxIte (m x : Int) : (if m < x then x else m) = max m x := by
  rcases le_or_lt m x with h | h
  · rw [max_eq_right h]
    split_ifs <;> omega
  · rw [max_eq_left h.le, if_neg (by omega)]

theorem c3max_eq (r s f : Int) : c3max r s f = max r (max s f) := by
  unfold c3max
  split_ifs <;> (apply le_antisymm <;> simp [le_max_iff, max_le_iff] <;> omega)

theorem procField_vcf (line : List Char) (id b : Nat) (f : List Char)
    (st : ParseSt) (h1 : id ≠ 1) (h2 : id ≠ 2) :
    procField tbx_conf_vcf line id b f st = vcfField id b f st := by
  rw [procField]
  rw [if_neg (show ¬ id = tbx_conf_vcf.sc from h1),
      if_neg (show ¬ id = tbx_conf_vcf.bc from h2),
      if_neg (by decide), if_neg (by decide), if_pos (by decide)]

theorem vcfField_skip (id b : Nat) (f : List Char) (st : ParseSt)
    (h4 : id ≠ 4) (h5 : id ≠ 5) (h8 : id ≠ 8)
    (h9 : ¬(st.getlen = true ∧ id = 9))
    (hno : ¬(9 < id ∧ st.getlen = true ∧ st.lenpos ≠ none)) :
    vcfField id b f st = .cont st := by
  rw [vcfField, if_neg h4, if_neg h5, if_neg h8, if_neg h9, if_neg hno]

theorem parseFinish_vcf (r : ParseSt × Bool) (h2 : r.2 = false) :
    (parseFinish tbx_conf_vcf r).en =
      max r.1.en (max r.1.reflen (max r.1.svlen r.1.fmtlen) + r.1.beg) ∧
    (parseFinish tbx_conf_vcf r).beg = r.1.beg := by
  unfold parseFinish
  rw [h2]
  rw [if_neg (by simp), if_pos (by decide)]
  rw [c3max_eq, maxIte]
  rw [max_comm]
  unfold parseCheck
  split <;> exact ⟨rfl, rfl⟩

theorem infoField_fields (f : List Char) (st : ParseSt) :
    (infoField f st).en = (match infoEndPtr f with
      | some s =>
        if s.headD '\x00' ≠ '.' ∧ st.beg < (strtoll s 0).1
        then (strtoll s 0).1 else st.en
      | none => st.en) ∧
    (infoField f st).svlen = (match svlenPtr f with
      | none => st.svlen
      | some sv => svlenGo st.alcnt st.use_svlen st.svflags (splitOnCh ',' sv) 1 st.svlen) ∧
    (infoField f st).beg = st.beg ∧ (infoField f st).alcnt = st.alcnt ∧
    (infoField f st).getlen = st.getlen ∧ (infoField f st).lenpos = st.lenpos ∧
    (infoField f st).fmtlen = st.fmtlen ∧ (infoField f st).reflen = st.reflen ∧
    (infoField f st).ss = st.ss := by
  have hup : (infoEndUpd f st).en = (match infoEndPtr f with
      | some s =>
        if s.headD '\x00' ≠ '.' ∧ st.beg < (strtoll s 0).1
        then (strtoll s 0).1 else st.en
      | none => st.en) ∧
      (infoEndUpd f st).svlen = st.svlen ∧
      (infoEndUpd f st).beg = st.beg ∧ (infoEndUpd f st).alcnt = st.alcnt ∧
      (infoEndUpd f st).getlen = st.getlen ∧ (infoEndUpd f st).lenpos = st.lenpos ∧
      (infoEndUpd f st).fmtlen = st.fmtlen ∧ (infoEndUpd f st).reflen = st.reflen ∧
      (infoEndUpd f st).use_svlen = st.use_svlen ∧
      (infoEndUpd f st).svflags = st.svflags ∧
      (infoEndUpd f st).ss = st.ss := by
    rw [infoEndUpd]
    cases hend : infoEndPtr f with
    | none => exact ⟨rfl, rfl, rfl, rfl, rfl, rfl, rfl, rfl, rfl, rfl, rfl⟩
    | some s =>
      dsimp only
      by_cases hdot : s.headD '\x00' ≠ '.'
      · rw [if_pos hdot]
        by_cases hle : (strtoll s 0).1 ≤ st.beg
        · rw [if_pos hle]
          by_cases hr : st.reported
          · rw [if_pos hr]
            refine ⟨?_, rfl, rfl, rfl, rfl, rfl, rfl, rfl, rfl, rfl, rfl⟩
            rw [if_neg (by rintro ⟨-, h⟩; omega)]
          · rw [if_neg hr]
            refine ⟨?_, rfl, rfl, rfl, rfl, rfl, rfl, rfl, rfl, rfl, rfl⟩
            rw [if_neg (by rintro ⟨-, h⟩; omega)]
        · rw [if_neg hle]
          refine ⟨?_, rfl, rfl, rfl, rfl, rfl, rfl, rfl, rfl, rfl, rfl⟩
          rw [if_pos ⟨hdot, by omega⟩]
      · rw [if_neg hdot]
        refine ⟨?_, rfl, rfl, rfl, rfl, rfl, rfl, rfl, rfl, rfl, rfl⟩
        rw [if_neg (by rintro ⟨h, -⟩; exact hdot h)]
  obtain ⟨e1, e2, e3, e4, e5, e6, e7, e8, e9, e10, e11⟩ := hup
  rw [infoField]
  cases hsv : svlenPtr f with
  | none => exact ⟨e1, e2, e3, e4, e5, e6, e7, e8, e11⟩
  | some sv =>
    dsimp only
    exact ⟨e1, by rw [e4, e9, e10, e2], e3, e4, e5, e6, e7, e8, e11⟩

theorem runFields_samples (line : List Char) (p : Nat) :
    ∀ (fs : List (Nat × List Char)) (id : Nat) (st : ParseSt),
      10 ≤ id → st.getlen = true → st.lenpos = some p →
      runFields tbx_conf_vcf line id fs st =
        ({ st with fmtlen := (fs.foldl
            (fun m q => if m < sampleLen q.2 p then sampleLen q.2 p else m)
            st.fmtlen) }, false) := by
  intro fs
  induction fs with
  | nil =>
    intro id st hid hg hl
    rfl
  | cons q rest ih =>
    intro id st hid hg hl
    obtain ⟨b, f⟩ := q
    have hp : procField tbx_conf_vcf line id b f st =
        .cont { st with fmtlen :=
          if st.fmtlen < sampleLen f p then sampleLen f p else st.fmtlen } := by
      rw [procField_vcf line id b f st (by omega) (by omega)]
      rw [vcfField, if_neg (by omega), if_neg (by omega), if_neg (by omega),
          if_neg (by rintro ⟨-, h⟩; omega),
          if_pos ⟨by omega, hg, by rw [hl]; simp⟩]
      rw [hl]
      rfl
    simp only [runFields, hp]
    rw [ih (id + 1) { st with fmtlen :=
      if st.fmtlen < sampleLen f p then sampleLen f p else st.fmtlen }
      (by omega) hg hl]
    rfl

theorem runFields_samples_skip (line : List Char) :
    ∀ (fs : List (Nat × List Char)) (id : Nat) (st : ParseSt),
      10 ≤ id → ¬(st.getlen = true ∧ st.lenpos ≠ none) →
      runFields tbx_conf_vcf line id fs st = (st, false) := by
  intro fs
  induction fs with
  | nil => intro id st _ _; rfl
  | cons q rest ih =>
    intro id st hid hng
    obtain ⟨b, f⟩ := q
    have hp : procField tbx_conf_vcf line id b f st = .cont st := by
      rw [procField_vcf line id b f st (by omega) (by omega)]
      exact vcfField_skip id b f st (by omega) (by omega) (by omega)
        (by rintro ⟨-, h⟩; omega)
        (by rintro ⟨-, hg, hl⟩; exact hng ⟨hg, hl⟩)
    simp only [runFields, hp]
    exact ih (id + 1) st (by omega) hng

theorem vcfSpecValidEnd_gt (line : List Char) (B e : Int)
    (h : vcfSpecValidEnd line B = some e) : B < e := by
  rw [vcfSpecValidEnd] at h
  rcases hend : infoEndPtr (fieldN line 8) with _ | s <;> rw [hend] at h
  · cases h
  · dsimp only at h
    by_cases hdot : s.headD '\x00' ≠ '.'
    · rw [if_pos hdot] at h
      by_cases hlt : B < (strtoll s 0).1
      · rw [if_pos hlt] at h
        injection h with h2
        omega
      · rw [if_neg hlt] at h
        cases h
    · rw [if_neg hdot] at h
      cases h

theorem foldl_sample (p : Nat) : ∀ (l : List (Nat × List Char)) (c : Int),
    l.foldl (fun m q => if m < sampleLen q.2 p then sampleLen q.2 p else m) c =
    (l.map Prod.snd).foldl (fun m f => max m (sampleLen f p)) c := by
  intro l
  induction l with
  | nil => intro c; rfl
  | cons q rest ih =>
    intro c
    simp only [List.foldl_cons, List.map_cons]
    rw [maxIte]
    exact ih _

theorem vcf_from_info (line : List Char) (t8 : List (Nat × List Char)) (st : ParseSt)
    (h8 : fieldN line 8 = (t8.getD 0 (0, [])).2)
    (h9 : fieldN line 9 = (t8.getD 1 (0, [])).2)
    (hdrop : ((splitFieldsPos line 0).map Prod.snd).drop 9 = (t8.drop 2).map Prod.snd)
    (hsvargs : t8 ≠ [] → st.alcnt = (vcfSpecAlt line).alcnt ∧
      st.use_svlen = (vcfSpecAlt line).use_svlen ∧
      st.svflags = (vcfSpecAlt line).svflags)
    (hgl : st.getlen = (vcfSpecAlt line).getlen)
    ( _hlp : st.lenpos = none) (hsv0 : st.svlen = 0) (hfm0 : st.fmtlen = 0)
    (hbeg : 0 ≤ st.beg) (hrl : st.reflen = ((fieldN line 4).length : Int))
    (hE : (st.en = 1 ∧ fieldN line 4 = []) ∨
          (st.en = st.beg + (fieldN line 4).length ∧ fieldN line 4 ≠ [])) :
    (parseFinish tbx_conf_vcf (runFields tbx_conf_vcf line 8 t8 st)).en =
      vcfSpecEnd line ((parseFinish tbx_conf_vcf (runFields tbx_conf_vcf line 8 t8 st)).beg) := by
  have hfinal : ∀ (F : ParseSt), F.beg = st.beg → F.reflen = st.reflen →
      F.svlen = vcfSpecSvlen line → F.fmtlen = vcfSpecFmtLen line →
      (F.en = (match vcfSpecValidEnd line st.beg with | some e => e | none => st.en)) →
      (parseFinish tbx_conf_vcf (F, false)).en =
        vcfSpecEnd line ((parseFinish tbx_conf_vcf (F, false)).beg) := by
    intro F hb hr hs hf he
    obtain ⟨hen, hbg⟩ := parseFinish_vcf (F, false) rfl
    rw [hen, hbg]
    dsimp only
    rw [hb, hr, hs, hf, he, hrl]
    rw [vcfSpecEnd]
    rcases hve : vcfSpecValidEnd line st.beg with _ | e <;> dsimp only
    · rcases hE with ⟨h1, h2⟩ | ⟨h1, h2⟩
      · rw [h1, h2]
        simp only [List.length_nil, Nat.cast_zero]
        omega
      · rw [h1]
        have hlen : 1 ≤ ((fieldN line 4).length : Int) := by
          have := List.length_pos.2 h2
          omega
        omega
    · have hgt : st.beg < e := vcfSpecValidEnd_gt line st.beg e hve
      rcases hE with ⟨h1, h2⟩ | ⟨h1, h2⟩
      · rw [h2]
        simp only [List.length_nil, Nat.cast_zero]
        omega
      · have hlen : 1 ≤ ((fieldN line 4).length : Int) := by
          have := List.length_pos.2 h2
          omega
        omega
  rcases t8 with _ | ⟨⟨b8, f8⟩, t9⟩
  · -- no INFO column at all
    have h8n : fieldN line 8 = [] := h8
    have h9n : fieldN line 9 = [] := h9
    have hS : vcfSpecSvlen line = 0 := by
      simp only [vcfSpecSvlen, h8n, show svlenPtr [] = none from by decide]
    have hFm : vcfSpecFmtLen line = 0 := by
      simp only [vcfSpecFmtLen, h9n,
        show (splitOnCh ':' ([] : List Char)).findIdx?
          (fun t => t = "LEN".toList) = none from by decide, ite_self]
    have hVE : vcfSpecValidEnd line st.beg = none := by
      simp only [vcfSpecValidEnd, h8n, show infoEndPtr [] = none from by decide]
    simp only [runFields]
    exact hfinal st rfl rfl (hsv0.trans hS.symm) (hfm0.trans hFm.symm) (by rw [hVE])
  · -- INFO column present
    have h8' : fieldN line 8 = f8 := h8
    obtain ⟨hal, husv, hfl⟩ := hsvargs (by simp)
    have hp8 : procField tbx_conf_vcf line 8 b8 f8 st = .cont (infoField f8 st) := by
      rw [procField_vcf line 8 b8 f8 st (by omega) (by omega)]
      rw [vcfField, if_neg (by omega), if_neg (by omega), if_pos rfl]
    simp only [runFields, hp8]
    obtain ⟨hIen, hIsv, hIbeg, hIal, hIgl2, hIlp, hIfm, hIrl, hIss⟩ :=
      infoField_fields f8 st
    have hEN : (infoField f8 st).en =
        (match vcfSpecValidEnd line st.beg with | some e => e | none => st.en) := by
      rw [hIen]
      simp only [vcfSpecValidEnd, h8']
      cases hend : infoEndPtr f8 with
      | none => rfl
      | some s =>
        dsimp only
        by_cases hdot : s.headD '\x00' ≠ '.'
        · rw [if_pos hdot]
          by_cases hlt : st.beg < (strtoll s 0).1
          · rw [if_pos ⟨hdot, hlt⟩, if_pos hlt]
          · rw [if_neg (by rintro ⟨-, hh⟩; exact hlt hh), if_neg hlt]
        · rw [if_neg (by rintro ⟨hh, -⟩; exact hdot hh), if_neg hdot]
    have hSV : (infoField f8 st).svlen = vcfSpecSvlen line := by
      rw [hIsv]
      simp only [vcfSpecSvlen, h8']
      cases hsvp : svlenPtr f8 with
      | none => exact hsv0
      | some sv =>
        dsimp only
        rw [hal, husv, hfl, hsv0]
    rcases t9 with _ | ⟨⟨b9, f9⟩, t10⟩
    · -- no FORMAT column
      have h9n : fieldN line 9 = [] := h9
      have hFm : vcfSpecFmtLen line = 0 := by
        simp only [vcfSpecFmtLen, h9n,
          show (splitOnCh ':' ([] : List Char)).findIdx?
            (fun t => t = "LEN".toList) = none from by decide, ite_self]
      simp only [runFields]
      exact hfinal (infoField f8 st) hIbeg hIrl hSV
        (by rw [hIfm, hfm0]; exact hFm.symm) hEN
    · -- FORMAT column present
      have h9' : fieldN line 9 = f9 := h9
      by_cases hglA : (vcfSpecAlt line).getlen = true
      · rcases hL : (splitOnCh ':' f9).findIdx? (fun t => t = "LEN".toList) with _ | p
        · -- getlen set but FORMAT has no LEN: break out of the loop
          have hp9 : procField tbx_conf_vcf line 9 b9 f9 (infoField f8 st) =
              .brk (infoField f8 st) := by
            rw [procField_vcf line 9 b9 f9 _ (by omega) (by omega)]
            rw [vcfField, if_neg (by omega), if_neg (by omega), if_neg (by omega),
                if_pos ⟨by rw [hIgl2, hgl]; exact hglA, rfl⟩]
            rw [hL]
          simp only [runFields, hp9]
          have hFm : vcfSpecFmtLen line = 0 := by
            rw [vcfSpecFmtLen, if_pos hglA]
            simp only [h9', hL]
          exact hfinal (infoField f8 st) hIbeg hIrl hSV
            (by rw [hIfm, hfm0]; exact hFm.symm) hEN
        · -- LEN found at position p: fold over the sample columns
          have hp9 : procField tbx_conf_vcf line 9 b9 f9 (infoField f8 st) =
              .cont { infoField f8 st with lenpos := some p } := by
            rw [procField_vcf line 9 b9 f9 _ (by omega) (by omega)]
            rw [vcfField, if_neg (by omega), if_neg (by omega), if_neg (by omega),
                if_pos ⟨by rw [hIgl2, hgl]; exact hglA, rfl⟩]
            rw [hL]
          simp only [runFields, hp9]
          rw [runFields_samples line p t10 10 { infoField f8 st with lenpos := some p }
            (by omega) (by rw [show ({ infoField f8 st with lenpos := some p } : ParseSt).getlen = (infoField f8 st).getlen from rfl, hIgl2, hgl]; exact hglA) rfl]
          refine hfinal _ hIbeg hIrl hSV ?_ hEN
          show t10.foldl (fun m q => if m < sampleLen q.2 p then sampleLen q.2 p else m)
              ({ infoField f8 st with lenpos := some p } : ParseSt).fmtlen =
            vcfSpecFmtLen line
          rw [show ({ infoField f8 st with lenpos := some p } : ParseSt).fmtlen = (infoField f8 st).fmtlen from rfl, hIfm, hfm0]
          rw [vcfSpecFmtLen, if_pos hglA]
          simp only [h9', hL]
          rw [hdrop]
          exact foldl_sample p t10 0
      · -- no <*> / <NON_REF> seen: the FORMAT and sample columns are skipped
        have hglF : (infoField f8 st).getlen = false := by
          rw [hIgl2, hgl]
          cases hb : (vcfSpecAlt line).getlen
          · rfl
          · exact absurd hb hglA
        have hp9 : procField tbx_conf_vcf line 9 b9 f9 (infoField f8 st) =
            .cont (infoField f8 st) := by
          rw [procField_vcf line 9 b9 f9 _ (by omega) (by omega)]
          exact vcfField_skip 9 b9 f9 _ (by omega) (by omega) (by omega)
            (by rintro ⟨hg, -⟩; rw [hglF] at hg; cases hg)
            (by rintro ⟨hh, -⟩; omega)
        simp only [runFields, hp9]
        rw [runFields_samples_skip line t10 10 (infoField f8 st) (by omega)
          (by rintro ⟨hg, -⟩; rw [hglF] at hg; cases hg)]
        have hFm : vcfSpecFmtLen line = 0 := by
          rw [vcfSpecFmtLen, if_neg hglA]
        exact hfinal (infoField f8 st) hIbeg hIrl hSV
          (by rw [hIfm, hfm0]; exact hFm.symm) hEN

/-- Claim C1 (amended): for a successfully parsed VCF-preset line, the
returned `end` is the single maximum of the floor 1, `begin + len(REF)`,
`begin + SVLEN-derived length`, `begin + FORMAT/LEN` taken over ALL sample
columns, and `INFO/END` when it is valid (present, not `.`, strictly
greater than `begin`). -/
theorem vcf_end_max_characterization (line : List Char) (rep : Bool)
    (h : (tbx_parse1 tbx_conf_vcf line rep).ret = 0) :
    (tbx_parse1 tbx_conf_vcf line rep).en =
      vcfSpecEnd line ((tbx_parse1 tbx_conf_vcf line rep).beg) := by
  unfold tbx_parse1 at h ⊢
  rcases hfs : splitFieldsPos line 0 with _ | ⟨⟨b1, f1⟩, t1⟩
  · exfalso
    rw [hfs] at h
    simp only [runFields] at h
    rw [parseFinish_fail_of tbx_conf_vcf (parseInit rep, false)
      (Or.inr (Or.inl rfl))] at h
    exact absurd h (by decide)
  · rw [hfs] at h
    have hp1 : procField tbx_conf_vcf line 1 b1 f1 (parseInit rep) =
        .cont ⟨some (b1, b1 + f1.length), -1, -1, 0, false, false, none, [],
          0, 0, 0, [], rep⟩ := rfl
    simp only [runFields, hp1] at h ⊢
    rcases t1 with _ | ⟨⟨b2, f2⟩, t2⟩
    · exfalso
      simp only [runFields] at h
      rw [parseFinish_fail_of tbx_conf_vcf
        ((⟨some (b1, b1 + f1.length), -1, -1, 0, false, false, none, [],
          0, 0, 0, [], rep⟩ : ParseSt), false)
        (Or.inr (Or.inr (show (-1 : Int) < 0 from by decide)))] at h
      exact absurd h (by decide)
    · rcases hs2 : strtoll (line.drop b2) 0 with ⟨v2, n2⟩
      by_cases hn2 : n2 = 0
      · exfalso
        obtain ⟨stF, hbc⟩ : ∃ s, bcField tbx_conf_vcf line b2 f2
            ⟨some (b1, b1 + f1.length), -1, -1, 0, false, false, none, [],
              0, 0, 0, [], rep⟩ = .fail s := by
          rw [bcField]
          rw [if_neg (by decide)]
          simp [hs2, hn2]
        have hp2 : procField tbx_conf_vcf line (1 + 1) b2 f2
            ⟨some (b1, b1 + f1.length), -1, -1, 0, false, false, none, [],
              0, 0, 0, [], rep⟩ = .fail stF := by
          rw [show procField tbx_conf_vcf line (1 + 1) b2 f2
            ⟨some (b1, b1 + f1.length), -1, -1, 0, false, false, none, [],
              0, 0, 0, [], rep⟩ =
            bcField tbx_conf_vcf line b2 f2
            ⟨some (b1, b1 + f1.length), -1, -1, 0, false, false, none, [],
              0, 0, 0, [], rep⟩ from rfl, hbc]
        simp only [runFields, hp2] at h
        rw [parseFinish_fail_of tbx_conf_vcf (stF, true) (Or.inl rfl)] at h
        exact absurd h (by decide)
      · have hbc : bcField tbx_conf_vcf line b2 f2
            ⟨some (b1, b1 + f1.length), -1, -1, 0, false, false, none, [],
              0, 0, 0, [], rep⟩ =
            .cont (if v2 - 1 < 0
              then ⟨some (b1, b1 + f1.length), 0, 1, 0, false, false, none, [],
                0, 0, 0, [.negCoord], rep⟩
              else ⟨some (b1, b1 + f1.length), v2 - 1, 1, 0, false, false, none, [],
                0, 0, 0, [], rep⟩) := by
          rw [bcField]
          rw [if_neg (by decide)]
          simp only [hs2]
          rw [if_neg hn2]
          simp only [if_neg (show ¬(tbx_conf_vcf.bc ≤ tbx_conf_vcf.ec) from by decide),
              if_pos (show tbx_conf_vcf.preset &&& TBX_UCSC = 0 from by decide)]
          by_cases hneg : v2 - 1 < 0
          · simp only [if_pos hneg]
            simp only [if_pos (show (-1 : Int) < 1 from by decide)]
            rfl
          · simp only [if_neg hneg]
            simp only [if_pos (show (-1 : Int) < 1 from by decide)]
        have hp2 : procField tbx_conf_vcf line (1 + 1) b2 f2
            ⟨some (b1, b1 + f1.length), -1, -1, 0, false, false, none, [],
              0, 0, 0, [], rep⟩ =
            bcField tbx_conf_vcf line b2 f2
            ⟨some (b1, b1 + f1.length), -1, -1, 0, false, false, none, [],
              0, 0, 0, [], rep⟩ := rfl
        simp only [runFields, hp2, hbc] at h ⊢
        suffices H : ∀ stB : ParseSt, stB.en = 1 → 0 ≤ stB.beg → stB.alcnt = 0 →
            stB.getlen = false → stB.use_svlen = false → stB.lenpos = none →
            stB.svflags = [] → stB.reflen = 0 → stB.svlen = 0 → stB.fmtlen = 0 →
            (parseFinish tbx_conf_vcf (runFields tbx_conf_vcf line 3 t2 stB)).en =
              vcfSpecEnd line
                ((parseFinish tbx_conf_vcf (runFields tbx_conf_vcf line 3 t2 stB)).beg) by
          by_cases hneg : v2 - 1 < 0
          · rw [if_pos hneg] at h ⊢
            exact H _ rfl (by norm_num) rfl rfl rfl rfl rfl rfl rfl rfl
          · rw [if_neg hneg] at h ⊢
            exact H _ rfl (show (0 : Int) ≤ v2 - 1 by omega) rfl rfl rfl rfl rfl rfl rfl rfl
        intro stB hen1 hB hal0 hgl0 husv0 hlp0 hfl0 hrl0 hsv0 hfm0
        rcases t2 with _ | ⟨⟨b3, f3⟩, t3⟩
        · have hA : (vcfSpecAlt line).getlen = false := by
            rw [vcfSpecAlt, show fieldN line 5 = [] from by simp [fieldN, hfs]]
            decide
          exact vcf_from_info line [] stB (by simp [fieldN, hfs])
            (by simp [fieldN, hfs]) (by simp [hfs])
            (fun hc => absurd rfl hc) (hgl0.trans hA.symm) hlp0 hsv0 hfm0 hB
            (by rw [hrl0, show fieldN line 4 = [] from by simp [fieldN, hfs]]; rfl)
            (Or.inl ⟨hen1, by simp [fieldN, hfs]⟩)
        · have hp3 : procField tbx_conf_vcf line 3 b3 f3 stB = .cont stB := by
            rw [procField_vcf line 3 b3 f3 stB (by omega) (by omega)]
            exact vcfField_skip 3 b3 f3 stB (by omega) (by omega) (by omega)
              (by rintro ⟨-, hh⟩; omega) (by rintro ⟨hh, -⟩; omega)
          simp only [runFields, hp3]
          rcases t3 with _ | ⟨⟨b4, f4⟩, t4⟩
          · have hA : (vcfSpecAlt line).getlen = false := by
              rw [vcfSpecAlt, show fieldN line 5 = [] from by simp [fieldN, hfs]]
              decide
            exact vcf_from_info line [] stB (by simp [fieldN, hfs])
              (by simp [fieldN, hfs]) (by simp [hfs])
              (fun hc => absurd rfl hc) (hgl0.trans hA.symm) hlp0 hsv0 hfm0 hB
              (by rw [hrl0, show fieldN line 4 = [] from by simp [fieldN, hfs]]; rfl)
              (Or.inl ⟨hen1, by simp [fieldN, hfs]⟩)
          · have hF4 : fieldN line 4 = f4 := by simp [fieldN, hfs]
            have hp4 : procField tbx_conf_vcf line 4 b4 f4 stB = .cont { stB with
                en := (if f4 = [] then stB.en else stB.beg + f4.length),
                alcnt := stB.alcnt + 1, reflen := (f4.length : Int) } := by
              rw [procField_vcf line 4 b4 f4 stB (by omega) (by omega)]
              rw [vcfField, if_pos rfl]
              by_cases hf : f4 = []
              · rw [if_neg (by simp [hf]), if_pos hf]
              · rw [if_pos hf, if_neg hf]
            simp only [runFields, hp4]
            have hEgen : (({ stB with
                en := (if f4 = [] then stB.en else stB.beg + f4.length),
                alcnt := stB.alcnt + 1,
                reflen := (f4.length : Int) } : ParseSt).en = 1 ∧ fieldN line 4 = []) ∨
                (({ stB with
                en := (if f4 = [] then stB.en else stB.beg + f4.length),
                alcnt := stB.alcnt + 1,
                reflen := (f4.length : Int) } : ParseSt).en =
                  stB.beg + (fieldN line 4).length ∧ fieldN line 4 ≠ []) := by
              by_cases hf : f4 = []
              · exact Or.inl ⟨by rw [if_pos hf]; exact hen1, hF4.trans hf⟩
              · exact Or.inr ⟨by rw [if_neg hf, hF4], by rw [hF4]; exact hf⟩
            rcases t4 with _ | ⟨⟨b5, f5⟩, t5⟩
            · have hA : (vcfSpecAlt line).getlen = false := by
                rw [vcfSpecAlt, show fieldN line 5 = [] from by simp [fieldN, hfs]]
                decide
              exact vcf_from_info line [] _ (by simp [fieldN, hfs])
                (by simp [fieldN, hfs]) (by simp [hfs])
                (fun hc => absurd rfl hc) (hgl0.trans hA.symm) hlp0 hsv0 hfm0 hB
                (by rw [hF4]) hEgen
            · have hF5 : fieldN line 5 = f5 := by simp [fieldN, hfs]
              have hstep : altScanGo (splitOnCh ',' f5) ⟨1, [], false, false⟩ =
                  vcfSpecAlt line := by rw [vcfSpecAlt, hF5]
              have hp5 : procField tbx_conf_vcf line 5 b5 f5 { stB with
                  en := (if f4 = [] then stB.en else stB.beg + f4.length),
                  alcnt := stB.alcnt + 1, reflen := (f4.length : Int) } =
                  .cont { stB with
                    en := (if f4 = [] then stB.en else stB.beg + f4.length),
                    alcnt := (vcfSpecAlt line).alcnt,
                    reflen := (f4.length : Int),
                    svflags := (vcfSpecAlt line).svflags,
                    getlen := (vcfSpecAlt line).getlen,
                    use_svlen := (vcfSpecAlt line).use_svlen } := by
                rw [procField_vcf line 5 b5 f5 _ (by omega) (by omega)]
                rw [vcfField, if_neg (by omega), if_pos rfl]
                rw [← hstep]
                dsimp only
                rw [hal0, hfl0, hgl0, husv0]
              simp only [runFields, hp5]
              rcases t5 with _ | ⟨⟨b6, f6⟩, t6⟩
              · exact vcf_from_info line [] _ (by simp [fieldN, hfs])
                  (by simp [fieldN, hfs]) (by simp [hfs])
                  (fun hc => absurd rfl hc) rfl hlp0 hsv0 hfm0 hB
                  (by rw [hF4]) hEgen
              · have hp6 : procField tbx_conf_vcf line 6 b6 f6 { stB with
                    en := (if f4 = [] then stB.en else stB.beg + f4.length),
                    alcnt := (vcfSpecAlt line).alcnt,
                    reflen := (f4.length : Int),
                    svflags := (vcfSpecAlt line).svflags,
                    getlen := (vcfSpecAlt line).getlen,
                    use_svlen := (vcfSpecAlt line).use_svlen } = .cont { stB with
                    en := (if f4 = [] then stB.en else stB.beg + f4.length),
                    alcnt := (vcfSpecAlt line).alcnt,
                    reflen := (f4.length : Int),
                    svflags := (vcfSpecAlt line).svflags,
                    getlen := (vcfSpecAlt line).getlen,
                    use_svlen := (vcfSpecAlt line).use_svlen } := by
                  rw [procField_vcf line 6 b6 f6 _ (by omega) (by omega)]
                  exact vcfField_skip 6 b6 f6 _ (by omega) (by omega) (by omega)
                    (by rintro ⟨-, hh⟩; omega) (by rintro ⟨hh, -⟩; omega)
                simp only [runFields, hp6]
                rcases t6 with _ | ⟨⟨b7, f7⟩, t7⟩
                · exact vcf_from_info line [] _ (by simp [fieldN, hfs])
                    (by simp [fieldN, hfs]) (by simp [hfs])
                    (fun hc => absurd rfl hc) rfl hlp0 hsv0 hfm0 hB
                    (by rw [hF4]) hEgen
                · have hp7 : procField tbx_conf_vcf line 7 b7 f7 { stB with
                      en := (if f4 = [] then stB.en else stB.beg + f4.length),
                      alcnt := (vcfSpecAlt line).alcnt,
                      reflen := (f4.length : Int),
                      svflags := (vcfSpecAlt line).svflags,
                      getlen := (vcfSpecAlt line).getlen,
                      use_svlen := (vcfSpecAlt line).use_svlen } = .cont { stB with
                      en := (if f4 = [] then stB.en else stB.beg + f4.length),
                      alcnt := (vcfSpecAlt line).alcnt,
                      reflen := (f4.length : Int),
                      svflags := (vcfSpecAlt line).svflags,
                      getlen := (vcfSpecAlt line).getlen,
                      use_svlen := (vcfSpecAlt line).use_svlen } := by
                    rw [procField_vcf line 7 b7 f7 _ (by omega) (by omega)]
                    exact vcfField_skip 7 b7 f7 _ (by omega) (by omega) (by omega)
                      (by rintro ⟨-, hh⟩; omega) (by rintro ⟨hh, -⟩; omega)
                  simp only [runFields, hp7]
                  exact vcf_from_info line t7 _
                    (by rcases t7 with _ | ⟨q1, t⟩ <;> simp [fieldN, hfs])
                    (by rcases t7 with _ | ⟨q1, _ | ⟨q2, t⟩⟩ <;> simp [fieldN, hfs])
                    (by rcases t7 with _ | ⟨q1, _ | ⟨q2, t⟩⟩ <;> simp [hfs])
                    (fun _ => ⟨rfl, rfl, rfl⟩) rfl hlp0 hsv0 hfm0 hB
                    (by rw [hF4]) hEgen

/-- Witness for `vcf_end_max_characterization` at a concrete VCF line with
REF, symbolic ALT, INFO/END, SVLEN and a FORMAT/LEN sample. -/
theorem vcf_end_max_characterization_witness :
    (tbx_parse1 tbx_conf_vcf ("c\t2\t.\tAA\tT".toList) false).ret = 0 ∧
    (tbx_parse1 tbx_conf_vcf ("c\t2\t.\tAA\tT".toList) false).en =
      vcfSpecEnd ("c\t2\t.\tAA\tT".toList)
        ((tbx_parse1 tbx_conf_vcf ("c\t2\t.\tAA\tT".toList) false).beg) :=
  ⟨by decide, vcf_end_max_characterization ("c\t2\t.\tAA\tT".toList) false (by decide)⟩

/-- Counterexample to claim C1 as stated: with FORMAT `LEN` and two sample
columns `5` and `100`, the code takes the FORMAT/LEN maximum over ALL
samples (end = 99 + 100 = 199), not the first sample only, which the
claim's formula (`vcfClaimEnd`) would make 99 + 5 = 104. -/
theorem vcf_end_first_sample_counterexample :
    (tbx_parse1 tbx_conf_vcf
      ("chr1\t100\t.\tA\t<*>\t.\t.\t.\tLEN\t5\t100".toList) false).ret = 0 ∧
    (tbx_parse1 tbx_conf_vcf
      ("chr1\t100\t.\tA\t<*>\t.\t.\t.\tLEN\t5\t100".toList) false).en = 199 ∧
    vcfClaimEnd ("chr1\t100\t.\tA\t<*>\t.\t.\t.\tLEN\t5\t100".toList)
      ((tbx_parse1 tbx_conf_vcf
        ("chr1\t100\t.\tA\t<*>\t.\t.\t.\tLEN\t5\t100".toList) false).beg) = 104 := by
  decide
